import Mathlib

set_option maxHeartbeats 1000000

namespace Payload

/-- A JSON-ish scalar value used for static default values. -/
inductive JVal where
  | str (s : String)
  | num (n : Int)
  | boolean (b : Bool)
  | null
deriving DecidableEq, Repr

/-- A field default value: a static value, or a dynamic generator function
(whose body is irrelevant to the schema compiler). -/
inductive DefaultVal where
  | value (v : JVal)
  | generator
deriving DecidableEq, Repr

/-- A select/radio option: either a plain string value or a label/value pair. -/
inductive FOption where
  | plain (value : String)
  | labeled (label value : String)
deriving DecidableEq, Repr

/-- Shared attributes of a data-affecting field
(`required`, `unique`, `index`, `hidden`, `localized`, `virtual`, `defaultValue`). -/
structure FieldFlags where
  required : Bool := false
  unique : Bool := false
  index : Option Bool := none
  hidden : Bool := false
  localized : Bool := false
  virtual : Bool := false
  defaultValue : Option DefaultVal := none
deriving DecidableEq, Repr

mutual

/-- The canonical in-memory field representation (the subset of field kinds the
storage schema builder and path-map builder dispatch over). -/
inductive Field where
  | text (name : String) (flags : FieldFlags) (hasMany : Bool)
  | number (name : String) (flags : FieldFlags) (hasMany : Bool)
  | checkbox (name : String) (flags : FieldFlags)
  | select (name : String) (flags : FieldFlags) (options : List FOption) (hasMany : Bool)
  | radio (name : String) (flags : FieldFlags) (options : List FOption)
  | point (name : String) (flags : FieldFlags)
  | group (name : Option String) (flags : FieldFlags) (fields : FieldList)
  | array (name : String) (flags : FieldFlags) (fields : FieldList)
  | row (fields : FieldList)
  | collapsible (fields : FieldList)
  | tabs (tabs : TabList)
  | blocks (name : String) (flags : FieldFlags) (blks : BlockList)
      (blockReferences : Option BlockRefs)

/-- A list of fields (spelled out so that the family stays non-nested and
structural recursion over it is available). -/
inductive FieldList where
  | nil
  | cons (f : Field) (rest : FieldList)

/-- A tab of a tabs field: optionally named, with localized/virtual markers. -/
inductive Tab where
  | mk (name : Option String) (localized : Bool) (virtualTab : Bool) (fields : FieldList)

inductive TabList where
  | nil
  | cons (t : Tab) (rest : TabList)

/-- A block (variant): slug plus nested field list. -/
inductive Block where
  | mk (slug : String) (fields : FieldList)

inductive BlockList where
  | nil
  | cons (b : Block) (rest : BlockList)

/-- One entry of an explicit `blockReferences` list: a slug string or an inline
block object. -/
inductive BlockRefEntry where
  | slug (s : String)
  | inlineBlock (b : Block)

inductive RefList where
  | nil
  | cons (r : BlockRefEntry) (rest : RefList)

/-- The `blockReferences` value of a blocks field: the string `'GlobalBlocks'`
or an explicit list of slug-or-inline entries. -/
inductive BlockRefs where
  | globalBlocks
  | list (refs : RefList)

end

/-- The storage type a leaf descriptor declares (the mongoose scalar types the
generators use). -/
inductive SType where
  | string
  | number
  | boolean
  | date
  | mixed
  | bigint
  | objectId
deriving DecidableEq, Repr

/-- The key-kind of one component of an emitted index
(ascending `1` or `'2dsphere'`). -/
inductive IndexKind where
  | asc
  | twodsphere
deriving DecidableEq, Repr

/-- Options attached to an emitted index (absent keys are `none`). -/
structure IndexOpts where
  unique : Option Bool := none
  sparse : Option Bool := none
deriving DecidableEq, Repr

/-- One index registered on a schema: ordered keys plus options. -/
structure IndexSpec where
  keys : List (String × IndexKind)
  opts : IndexOpts
deriving DecidableEq, Repr

/-- The base leaf descriptor produced by `formatBaseSchema` (keys that the code
only conditionally writes are `Option`s). -/
structure BaseOpts where
  default : Option JVal := none
  index : Bool := false
  required : Bool := false
  unique : Bool := false
  sparse : Option Bool := none
  hidden : Option Bool := none
deriving DecidableEq, Repr

mutual

/-- The value stored for one field name in a compiled schema. -/
inductive FieldSchema where
  /-- descriptor from `formatBaseSchema` plus a scalar `type` (a list type when
  `hasMany`, e.g. `[String]`), and an optional `enum` (a `none` element is the
  `null` sentinel). -/
  | scalar (opts : BaseOpts) (ty : SType) (hasMany : Bool)
      (enumVals : Option (List (Option String)))
  /-- a whole descriptor wrapped in a list (`field.hasMany ? [baseSchema] : ...`
  on select fields). -/
  | listOf (inner : FieldSchema)
  /-- descriptor whose `type` is a sub-schema (named group). -/
  | sub (opts : BaseOpts) (s : MSchema)
  /-- descriptor whose `type` is `[subSchema]` (array field). -/
  | subArray (opts : BaseOpts) (s : MSchema)
  /-- bare `{type: subSchema}` descriptor with no base options (named tab). -/
  | bareSub (s : MSchema)
  /-- descriptor whose `type` is `[new Schema({}, {discriminatorKey:'blockType'})]`
  (blocks field; the variants are attached as discriminators on the path). -/
  | blocksArr (opts : BaseOpts)
  /-- the literal geo-point descriptor
  `{type:{type:String,enum:['Point'],default?},coordinates:{type:[Number],default,required,sparse?}}`. -/
  | pointEntry (typeHasDefault : Bool) (coordDefault : Option JVal)
      (coordRequired : Bool) (coordSparse : Bool)
  /-- the localization wrapper: a record keyed by locale codes, each holding the
  descriptor, marked `localized: true` (with `_id: false`). -/
  | localeRecord (entries : FSList)

/-- An ordered name-to-descriptor association list (the entries added by
`schema.add`). -/
inductive FSList where
  | nil
  | cons (name : String) (entry : FieldSchema) (rest : FSList)

/-- What a discriminator attachment points at: the pre-built global shell for a
slug (a by-reference use of the registry entry), or a freshly compiled inline
schema. -/
inductive BlockRef where
  | global (slug : String)
  | inline (s : MSchema)

/-- Discriminator attachments: (path the discriminator is attached on, variant
slug, referenced schema). -/
inductive DiscrimList where
  | nil
  | cons (path slug : String) (ref : BlockRef) (rest : DiscrimList)

/-- A compiled mongoose schema: the seed fields handed to the constructor
(the `_id` override), the entries added by generators, the discriminators, and
the registered indexes. -/
inductive MSchema where
  | mk (seed : List (String × SType)) (entries : FSList)
      (discrims : DiscrimList) (indexes : List IndexSpec)

end

def MSchema.empty : MSchema := .mk [] .nil .nil []

def MSchema.withSeed (seed : List (String × SType)) : MSchema := .mk seed .nil .nil []

def MSchema.seed : MSchema → List (String × SType)
  | .mk s _ _ _ => s

def MSchema.entries : MSchema → FSList
  | .mk _ e _ _ => e

def MSchema.discrims : MSchema → DiscrimList
  | .mk _ _ d _ => d

def MSchema.indexes : MSchema → List IndexSpec
  | .mk _ _ _ i => i

/-- Append one entry at the end (mirrors `schema.add` adding paths in call
order). -/
def FSList.addLast (l : FSList) (name : String) (e : FieldSchema) : FSList :=
  match l with
  | .nil => .cons name e .nil
  | .cons n x rest => .cons n x (rest.addLast name e)

/-- First entry stored under a name, if any. -/
def FSList.lookup (l : FSList) (name : String) : Option FieldSchema :=
  match l with
  | .nil => none
  | .cons n x rest => if n = name then some x else rest.lookup name

def FSList.names : FSList → List String
  | .nil => []
  | .cons n _ rest => n :: rest.names

def DiscrimList.addLast (l : DiscrimList) (path slug : String) (r : BlockRef) : DiscrimList :=
  match l with
  | .nil => .cons path slug r .nil
  | .cons p s x rest => .cons p s x (rest.addLast path slug r)

/-- The (path, slug) pairs of the attached discriminators, in order. -/
def DiscrimList.keys : DiscrimList → List (String × String)
  | .nil => []
  | .cons p s _ rest => (p, s) :: rest.keys

def MSchema.addEntry (m : MSchema) (name : String) (e : FieldSchema) : MSchema :=
  .mk m.seed (m.entries.addLast name e) m.discrims m.indexes

def MSchema.addDiscrim (m : MSchema) (path slug : String) (r : BlockRef) : MSchema :=
  .mk m.seed m.entries (m.discrims.addLast path slug r) m.indexes

def MSchema.addIndex (m : MSchema) (i : IndexSpec) : MSchema :=
  .mk m.seed m.entries m.discrims (m.indexes ++ [i])

/-- The model's localization configuration: the ordered locale codes
(`localeCodes`; `locales` carries the same codes). -/
structure Localization where
  localeCodes : List String
deriving DecidableEq, Repr

/-- A generic string-keyed map modelled as an association list whose `set`
replaces the first binding of an existing key and otherwise appends
(JS `Map.set` semantics as observed through `get`). -/
def mapSet {α : Type} (m : List (String × α)) (k : String) (v : α) : List (String × α) :=
  match m with
  | [] => [(k, v)]
  | (k', v') :: rest => if k' = k then (k, v) :: rest else (k', v') :: mapSet rest k v

def mapGet {α : Type} (m : List (String × α)) (k : String) : Option α :=
  match m with
  | [] => none
  | (k', v') :: rest => if k' = k then some v' else mapGet rest k

/-- The registry of pre-built global block schemas (`payload.db.globalBlockSchemas`). -/
abbrev SchemaMap := List (String × MSchema)

/-- The slice of the `Payload` instance the storage schema builder reads:
`config.localization`, `config.blocks`, `db.globalBlockSchemas`, and
`db.useBigIntForNumberIDs`. -/
structure PayloadEnv where
  localization : Option Localization := none
  blocks : List Block := []
  globalBlockSchemas : SchemaMap := []
  useBigIntForNumberIDs : Bool := false

/-- `BuildSchemaOptions` (the raw mongoose `options` are not modelled; the
claims never consult them). -/
structure BuildSchemaOptions where
  allowIDField : Bool := false
  disableUnique : Bool := false
  draftsEnabled : Bool := false
  indexSortableFields : Bool := false
deriving DecidableEq, Repr

/-- Modelled from the spec: `fieldShouldBeLocalized` from `payload/shared` is
not among the sources. Per the spec, a field is treated as localized when it is
marked localized, and nested containers propagate `parentIsLocalized OR
self.localized`, so a field already under a localized parent is not re-wrapped;
the call sites pass only the entity's flag and `parentIsLocalized`. -/
def fieldShouldBeLocalized (localized : Bool) (parentIsLocalized : Bool) : Bool :=
  localized && !parentIsLocalized

def Field.flags : Field → FieldFlags
  | .text _ fl _ => fl
  | .number _ fl _ => fl
  | .checkbox _ fl => fl
  | .select _ fl _ _ => fl
  | .radio _ fl _ => fl
  | .point _ fl => fl
  | .group _ fl _ => fl
  | .array _ fl _ => fl
  | .blocks _ fl _ _ => fl
  | .row _ => {}
  | .collapsible _ => {}
  | .tabs _ => {}

/-- The field's name, when it has one. -/
def Field.name? : Field → Option String
  | .text n _ _ => some n
  | .number n _ _ => some n
  | .checkbox n _ => some n
  | .select n _ _ _ => some n
  | .radio n _ _ => some n
  | .point n _ => some n
  | .group n _ _ => n
  | .array n _ _ => some n
  | .blocks n _ _ _ => some n
  | .row _ => none
  | .collapsible _ => none
  | .tabs _ => none

/-- `fieldAffectsData`: the field persists data under its own name
(it has a `name`; none of the embedded kinds are presentational-only). -/
def fieldAffectsData (f : Field) : Bool :=
  f.name?.isSome

/-- `field.type === 'group' || field.type === 'tab'` as tested by
`formatBaseSchema` (a `Tab` is never passed to it in this file). -/
def Field.isGroupOrTab : Field → Bool
  | .group _ _ _ => true
  | _ => false

/-- `fieldIsVirtual`. -/
def fieldIsVirtual (f : Field) : Bool :=
  f.flags.virtual

/-- `fieldIsPresentationalOnly`: presentational kinds (`ui`) are outside the
embedded kind set, so this is `false` on every embedded field. -/
def fieldIsPresentationalOnly (_f : Field) : Bool :=
  false

def Tab.name? : Tab → Option String
  | .mk n _ _ _ => n

def Tab.localized : Tab → Bool
  | .mk _ l _ _ => l

def Tab.virtualTab : Tab → Bool
  | .mk _ _ v _ => v

def Tab.fields : Tab → FieldList
  | .mk _ _ _ fs => fs

def tabHasName (t : Tab) : Bool :=
  t.name?.isSome

def Block.slug : Block → String
  | .mk s _ => s

def Block.fields : Block → FieldList
  | .mk _ fs => fs

def BlockRefEntry.refSlug : BlockRefEntry → String
  | .slug s => s
  | .inlineBlock b => b.slug

/-- `formatDefaultValue`: a default value only if defined and not dynamic. -/
def formatDefaultValue (fl : FieldFlags) : Option JVal :=
  match fl.defaultValue with
  | some (.value v) => some v
  | _ => none

/-- `formatBaseSchema`. -/
def formatBaseSchema (o : BuildSchemaOptions) (f : Field) (parentIsLocalized : Bool) :
    BaseOpts :=
  let fl := f.flags
  let schema : BaseOpts := {
    default := formatDefaultValue fl
    index := fl.index.getD false || (!o.disableUnique && fl.unique) || o.indexSortableFields
    required := false
    unique := !o.disableUnique && fl.unique }
  let schema :=
    if schema.unique &&
        (fieldShouldBeLocalized fl.localized parentIsLocalized || o.draftsEnabled ||
          (fieldAffectsData f && !f.isGroupOrTab && !fl.required)) then
      { schema with sparse := some true }
    else schema
  if fl.hidden then { schema with hidden := some true } else schema

/-- The per-locale record `localizeSchema` builds via
`localeCodes.reduce((acc, locale) => ({...acc, [locale]: schema}), {_id: false})`. -/
def localeEntries (codes : List String) (fs : FieldSchema) : FSList :=
  codes.foldr (fun c acc => .cons c fs acc) .nil

/-- `localizeSchema`: wrap the descriptor in a per-locale record when the
entity is localization-effective and the model has locales. -/
def localizeSchema (entityLocalized : Bool) (fs : FieldSchema)
    (localization : Option Localization) (parentIsLocalized : Bool) : FieldSchema :=
  match localization with
  | some loc =>
      if fieldShouldBeLocalized entityLocalized parentIsLocalized then
        .localeRecord (localeEntries loc.localeCodes fs)
      else fs
  | none => fs

/-- Unwrap a select/radio option to its bare value. -/
def FOption.unwrap : FOption → String
  | .plain v => v
  | .labeled _ v => v

/-- `fieldAffectsData(field) && field.name === 'id'`: the test used both to find
the custom id field and to filter it out of the normal field list. -/
def isIdField (f : Field) : Bool :=
  fieldAffectsData f && f.name? == some "id"

/-- `schemaFields.find((field) => fieldAffectsData(field) && field.name === 'id')`. -/
def findIdField : FieldList → Option Field
  | .nil => none
  | .cons f rest => if isIdField f then some f else findIdField rest

/-- The `_id` override seeded into the schema constructor when a custom id
field is present: `BigInt`/`Number` for number ids, else `String`. -/
def idSeed (env : PayloadEnv) (idf : Field) : List (String × SType) :=
  [("_id",
    match idf with
    | .number _ _ _ => if env.useBigIntForNumberIDs then SType.bigint else SType.number
    | _ => SType.string)]

/-- STEP 2 of the blocks generator for `blockReferences === 'GlobalBlocks'`:
walk `payload.config.blocks` and, for each slug not already claimed, attach the
pre-built global schema (by reference) when the registry has it. -/
def collectGlobalRefs (gblocks : List Block) (gmap : SchemaMap)
    (acc : List (String × BlockRef)) (processed : List String) :
    List (String × BlockRef) × List String :=
  match gblocks with
  | [] => (acc, processed)
  | b :: rest =>
      if processed.contains b.slug then
        collectGlobalRefs rest gmap acc processed
      else
        match mapGet gmap b.slug with
        | some _ =>
            collectGlobalRefs rest gmap (acc ++ [(b.slug, BlockRef.global b.slug)])
              (b.slug :: processed)
        | none => collectGlobalRefs rest gmap acc processed

/-- One step of STEP 3 of the blocks generator: attach one collected variant as
a discriminator on the field's path (or on each per-locale sub-path when the
field is localization-effective and the model has locales). -/
def attachOne (fieldName : String) (fieldLocalized : Bool) (env : PayloadEnv)
    (pil : Bool) (s : MSchema) (p : String × BlockRef) : MSchema :=
  match env.localization with
  | some loc =>
      if fieldShouldBeLocalized fieldLocalized pil then
        loc.localeCodes.foldl
          (fun s code => s.addDiscrim (fieldName ++ "." ++ code) p.1 p.2) s
      else s.addDiscrim fieldName p.1 p.2
  | none => s.addDiscrim fieldName p.1 p.2

/-- STEP 3 of the blocks generator: attach every collected variant. -/
def attachDiscrims (fieldName : String) (fieldLocalized : Bool) (env : PayloadEnv)
    (pil : Bool) (toAdd : List (String × BlockRef)) (schema : MSchema) : MSchema :=
  toAdd.foldl (attachOne fieldName fieldLocalized env pil) schema

mutual

/-- The per-field loop of `buildSchema` (and of the merge-container generators):
fold the generators over a field list. `dropId` mirrors the
`schemaFields.filter(...)` removal of the custom id field; `skipVirtual`
mirrors the `fieldIsVirtual` / `fieldIsPresentationalOnly` guards. -/
def buildFields (env : PayloadEnv) (o : BuildSchemaOptions) (dropId skipVirtual : Bool)
    (fs : FieldList) (pil : Bool) (acc : MSchema) : MSchema :=
  match fs with
  | .nil => acc
  | .cons f rest =>
      let acc :=
        if dropId && isIdField f then acc
        else if skipVirtual && (fieldIsVirtual f || fieldIsPresentationalOnly f) then acc
        else addField env o pil f acc
      buildFields env o dropId skipVirtual rest pil acc

/-- The table-driven per-kind generators (`fieldToSchemaMap`). -/
def addField (env : PayloadEnv) (o : BuildSchemaOptions) (pil : Bool) (f : Field)
    (schema : MSchema) : MSchema :=
  match f with
  | .text n fl many =>
      schema.addEntry n (localizeSchema fl.localized
        (.scalar (formatBaseSchema o f pil) .string many none) env.localization pil)
  | .number n fl many =>
      schema.addEntry n (localizeSchema fl.localized
        (.scalar (formatBaseSchema o f pil) .number many none) env.localization pil)
  | .checkbox n fl =>
      schema.addEntry n (localizeSchema fl.localized
        (.scalar (formatBaseSchema o f pil) .boolean false none) env.localization pil)
  | .select n fl opts many =>
      let enum0 := opts.map (fun opt => some opt.unwrap)
      let enum1 := if o.draftsEnabled || !fl.required then enum0 ++ [none] else enum0
      let base := FieldSchema.scalar (formatBaseSchema o f pil) .string false (some enum1)
      let shaped := if many then FieldSchema.listOf base else base
      schema.addEntry n (localizeSchema fl.localized shaped env.localization pil)
  | .radio n fl opts =>
      schema.addEntry n (localizeSchema fl.localized
        (.scalar (formatBaseSchema o f pil) .string false
          (some (opts.map (fun opt => some opt.unwrap)))) env.localization pil)
  | .point n fl =>
      let entry := FieldSchema.pointEntry fl.defaultValue.isSome (formatDefaultValue fl)
        false (o.disableUnique && fl.unique && fieldShouldBeLocalized fl.localized pil)
      let schema := schema.addEntry n
        (localizeSchema fl.localized entry env.localization pil)
      if fl.index.getD true then
        let ixOpts : IndexOpts :=
          if !o.disableUnique && fl.unique then { sparse := some true, unique := some true }
          else {}
        match env.localization with
        | some loc =>
            if fieldShouldBeLocalized fl.localized pil then
              loc.localeCodes.foldl
                (fun s code => s.addIndex ⟨[(n ++ "." ++ code, .twodsphere)], ixOpts⟩) schema
            else schema.addIndex ⟨[(n, .twodsphere)], ixOpts⟩
        | none => schema.addIndex ⟨[(n, .twodsphere)], ixOpts⟩
      else schema
  | .group (some n) fl gfields =>
      let fbs := formatBaseSchema o f pil
      let sortable := o.indexSortableFields && n == "version" && o.draftsEnabled
      let subOpts : BuildSchemaOptions :=
        { disableUnique := o.disableUnique, draftsEnabled := o.draftsEnabled
          indexSortableFields := sortable }
      let idf := findIdField gfields
      let seed := match idf with | some g => idSeed env g | none => []
      let sub := buildFields env subOpts idf.isSome true gfields (pil || fl.localized)
        (MSchema.withSeed seed)
      schema.addEntry n (localizeSchema fl.localized (.sub fbs sub) env.localization pil)
  | .group none fl gfields =>
      buildFields env o false true gfields (pil || fl.localized) schema
  | .array n fl afields =>
      let fbs := formatBaseSchema o f pil
      let subOpts : BuildSchemaOptions :=
        { allowIDField := true, disableUnique := o.disableUnique
          draftsEnabled := o.draftsEnabled }
      let sub := buildFields env subOpts false true afields (pil || fl.localized) MSchema.empty
      schema.addEntry n (localizeSchema fl.localized (.subArray fbs sub) env.localization pil)
  | .row rfields =>
      buildFields env o false true rfields pil schema
  | .collapsible cfields =>
      buildFields env o false true cfields pil schema
  | .tabs ts =>
      buildTabs env o pil ts schema
  | .blocks n fl blks refs? =>
      let fbs := formatBaseSchema o f pil
      let schema := schema.addEntry n
        (localizeSchema fl.localized (.blocksArr fbs) env.localization pil)
      let st1 := collectInline env o (pil || fl.localized) blks [] []
      let st2 :=
        match refs? with
        | none => st1
        | some .globalBlocks => collectGlobalRefs env.blocks env.globalBlockSchemas st1.1 st1.2
        | some (.list refs) =>
            collectRefs env o (pil || fl.localized) env.globalBlockSchemas refs st1.1 st1.2
      attachDiscrims n fl.localized env pil st2.1 schema

/-- STEP 1 of the blocks generator: compile every inline block fresh (no
virtual/presentational guard, matching the source's direct `forEach`). -/
def collectInline (env : PayloadEnv) (o : BuildSchemaOptions) (pilForBlocks : Bool)
    (bl : BlockList) (acc : List (String × BlockRef)) (processed : List String) :
    List (String × BlockRef) × List String :=
  match bl with
  | .nil => (acc, processed)
  | .cons (.mk bslug bfields) rest =>
      let bs := buildFields env o false false bfields pilForBlocks MSchema.empty
      collectInline env o pilForBlocks rest (acc ++ [(bslug, BlockRef.inline bs)])
        (bslug :: processed)

/-- STEP 2 of the blocks generator for an explicit `blockReferences` array:
inline objects compile fresh, slug strings attach the pre-built global schema,
and slugs already claimed (or unknown to the registry) are skipped. -/
def collectRefs (env : PayloadEnv) (o : BuildSchemaOptions) (pilForBlocks : Bool)
    (gmap : SchemaMap) (rl : RefList) (acc : List (String × BlockRef))
    (processed : List String) : List (String × BlockRef) × List String :=
  match rl with
  | .nil => (acc, processed)
  | .cons (.inlineBlock (.mk bslug bfields)) rest =>
      if processed.contains bslug then
        collectRefs env o pilForBlocks gmap rest acc processed
      else
        let bs := buildFields env o false false bfields pilForBlocks MSchema.empty
        collectRefs env o pilForBlocks gmap rest
          (acc ++ [(bslug, BlockRef.inline bs)]) (bslug :: processed)
  | .cons (.slug str) rest =>
      if processed.contains str then
        collectRefs env o pilForBlocks gmap rest acc processed
      else
        match mapGet gmap str with
        | some _ =>
            collectRefs env o pilForBlocks gmap rest
              (acc ++ [(str, BlockRef.global str)]) (str :: processed)
        | none => collectRefs env o pilForBlocks gmap rest acc processed

/-- The `tabs` generator: named tabs build a fresh sub-schema under their own
key; unnamed tabs hoist their fields into the parent schema. -/
def buildTabs (env : PayloadEnv) (o : BuildSchemaOptions) (pil : Bool) (ts : TabList)
    (schema : MSchema) : MSchema :=
  match ts with
  | .nil => schema
  | .cons (.mk (some tn) tloc tvirt tfields) rest =>
      let schema :=
        if tvirt then schema
        else
          let subOpts : BuildSchemaOptions :=
            { disableUnique := o.disableUnique, draftsEnabled := o.draftsEnabled }
          let idf := findIdField tfields
          let seed := match idf with | some g => idSeed env g | none => []
          let sub := buildFields env subOpts idf.isSome true tfields (pil || tloc)
            (MSchema.withSeed seed)
          schema.addEntry tn (localizeSchema tloc (.bareSub sub) env.localization pil)
      buildTabs env o pil rest schema
  | .cons (.mk none tloc _tvirt tfields) rest =>
      let schema := buildFields env o false true tfields (pil || tloc) schema
      buildTabs env o pil rest schema

end

/-- One component of a compound index: the plain path, and the
locale-parametrized path when the path crosses a localized ancestor. -/
structure CompoundIndexField where
  path : String
  localizedPath : String
  pathHasLocalized : Bool
deriving DecidableEq, Repr

/-- A sanitized compound index: ordered path components plus a uniqueness flag. -/
structure CompoundIndex where
  fields : List CompoundIndexField
  unique : Bool
deriving DecidableEq, Repr

/-- The compound-index registration loop at the end of `buildSchema`. -/
def addCompoundIndexes (env : PayloadEnv) (o : BuildSchemaOptions)
    (cis : List CompoundIndex) (s : MSchema) : MSchema :=
  cis.foldl (fun s ci =>
    let keys := ci.fields.foldl (fun acc cf =>
      match env.localization with
      | some loc =>
          if cf.pathHasLocalized then
            acc ++ loc.localeCodes.map
              (fun c => (cf.localizedPath.replace "<locale>" c, IndexKind.asc))
          else acc ++ [(cf.path, IndexKind.asc)]
      | none => acc ++ [(cf.path, IndexKind.asc)]) []
    s.addIndex ⟨keys, { unique := some (if o.disableUnique then false else ci.unique) }⟩) s

/-- `buildSchema`: extract a custom id field into the `_id` seed unless
`allowIDField`, run the generators over the remaining fields, then register the
compound indexes. -/
def buildSchema (env : PayloadEnv) (o : BuildSchemaOptions)
    (compoundIndexes : List CompoundIndex) (configFields : FieldList) (pil : Bool) :
    MSchema :=
  let idf := if o.allowIDField then none else findIdField configFields
  let seed := match idf with | some g => idSeed env g | none => []
  let s := buildFields env o idf.isSome true configFields pil (MSchema.withSeed seed)
  addCompoundIndexes env o compoundIndexes s

/-- `buildGlobalBlockSchemas`: pass 1 allocates an empty slug-keyed shell per
global block; pass 2 populates each shell with its compiled fields. Modelled
from the spec: the adapter wiring that exposes the map as
`payload.db.globalBlockSchemas` during pass 2 is not among the sources; per the
spec every shell pre-exists before any variant's fields are populated, so
pass 2 runs with the pass-1 shell map installed as the registry. -/
def pass1Shells (blocks : List Block) : SchemaMap :=
  blocks.foldl (fun m b => mapSet m b.slug MSchema.empty) []

def buildGlobalBlockSchemas (env : PayloadEnv) (o : BuildSchemaOptions) : SchemaMap :=
  if env.blocks.isEmpty then []
  else
    let shells := pass1Shells env.blocks
    let env2 := { env with globalBlockSchemas := shells }
    env.blocks.foldl (fun m b =>
      let bs := (mapGet m b.slug).getD MSchema.empty
      let bs := buildFields env2 o false true b.fields false bs
      mapSet m b.slug bs) shells

def BlockList.find? (bl : BlockList) (slug : String) : Option Block :=
  match bl with
  | .nil => none
  | .cons b rest => if b.slug = slug then some b else rest.find? slug

def BlockList.toList : BlockList → List Block
  | .nil => []
  | .cons b rest => b :: rest.toList

def BlockList.slugs : BlockList → List String
  | .nil => []
  | .cons b rest => b.slug :: rest.slugs

/-- `payload.config.blocks?.find((b) => b.slug === blockType)`. -/
def findGlobal (gblocks : List Block) (slug : String) : Option Block :=
  gblocks.find? (fun b => b.slug == slug)

/-- The `blockReferences` loop of `resolveBlock`: slug strings resolve against
the global registry (returning whatever the lookup yields, even a miss), inline
objects compare directly; first match wins. -/
def resolveInRefs (gblocks : List Block) (blockType : String) : RefList → Option Block
  | .nil => none
  | .cons (.slug str) rest =>
      if str = blockType then findGlobal gblocks blockType
      else resolveInRefs gblocks blockType rest
  | .cons (.inlineBlock b) rest =>
      if b.slug = blockType then some b
      else resolveInRefs gblocks blockType rest

/-- `resolveBlock`: inline blocks first, then the reference policy. -/
def resolveBlock (env : PayloadEnv) (blockType : String) (blks : BlockList)
    (refs? : Option BlockRefs) : Option Block :=
  match blks.find? blockType with
  | some b => some b
  | none =>
      match refs? with
      | some .globalBlocks => findGlobal env.blocks blockType
      | some (.list refs) => resolveInRefs env.blocks blockType refs
      | none => none

/-- An element of the list `getBlocksForField` returns (`Block | string`). -/
inductive BlockOrSlug where
  | block (b : Block)
  | slugRef (s : String)

def BlockOrSlug.slugOf : BlockOrSlug → String
  | .block b => b.slug
  | .slugRef s => s

/-- The push-unless-claimed loop over an explicit `blockReferences` array in
`getBlocksForField`. -/
def refsAvailable (rl : RefList) (acc : List BlockOrSlug) (inlineSlugs : List String) :
    List BlockOrSlug :=
  match rl with
  | .nil => acc
  | .cons (.slug str) rest =>
      if inlineSlugs.contains str then refsAvailable rest acc inlineSlugs
      else refsAvailable rest (acc ++ [BlockOrSlug.slugRef str]) inlineSlugs
  | .cons (.inlineBlock b) rest =>
      if inlineSlugs.contains b.slug then refsAvailable rest acc inlineSlugs
      else refsAvailable rest (acc ++ [BlockOrSlug.block b]) inlineSlugs

/-- `getBlocksForField`: all blocks available to a field; inline blocks first,
then referenced blocks not claimed by an inline slug. -/
def getBlocksForField (env : PayloadEnv) (blks : BlockList) (refs? : Option BlockRefs) :
    List BlockOrSlug :=
  match refs? with
  | none => blks.toList.map .block
  | some .globalBlocks =>
      let inlineSlugs := blks.slugs
      env.blocks.foldl
        (fun res g => if inlineSlugs.contains g.slug then res else res ++ [.block g])
        (blks.toList.map .block)
  | some (.list refs) =>
      let inlineSlugs := blks.slugs
      refsAvailable refs (blks.toList.map .block) inlineSlugs

/-- An entry of the client field schema map: a field, a block, a tab, or a bare
field list (the top-level record entry). -/
inductive MapEntry where
  | field (f : Field)
  | block (b : Block)
  | tab (t : Tab)
  | fieldsOnly (fs : FieldList)

abbrev CSchemaMap := List (String × MapEntry)

/-- Modelled from the spec: `getFieldPaths` from `payload/shared` is not among
the sources. Per the spec, a path segment is appended only by named
(namespace-introducing) nodes; anonymous nodes extend an index-path used solely
to disambiguate anonymous siblings. -/
def getFieldPaths (name? : Option String) (index : Nat)
    (parentIndexPath parentSchemaPath : String) : String × String :=
  match name? with
  | some n => ("", parentSchemaPath ++ "." ++ n)
  | none =>
      let ip :=
        if parentIndexPath = "" then toString index
        else parentIndexPath ++ "-" ++ toString index
      (ip, parentSchemaPath ++ "._index-" ++ ip)

/-- The slice of the `ClientConfig` the client path-map builder reads. -/
structure CCollection where
  slug : String
  fields : FieldList
  authEnabled : Bool := false

structure ClientCfg where
  blocks : List Block := []
  collections : List CCollection := []
  globalsList : List (String × FieldList) := []

mutual

/-- The client path-map `traverseFields`: record every field under its schema
path and recurse per kind; for a blocks field, traverse inline blocks and copy
pre-built global entries for referenced slugs. -/
def traverseClientFields (cfg : ClientCfg) (fs : FieldList) (index : Nat)
    (parentIndexPath parentSchemaPath : String) (m : CSchemaMap) : CSchemaMap :=
  match fs with
  | .nil => m
  | .cons f rest =>
      let paths := getFieldPaths f.name? index
        (if f.name?.isSome then "" else parentIndexPath) parentSchemaPath
      let indexPath := paths.1
      let schemaPath := paths.2
      let m := mapSet m schemaPath (.field f)
      let m :=
        match f with
        | .array _ _ afields =>
            traverseClientFields cfg afields 0 "" schemaPath m
        | .blocks _ _ blks refs? =>
            let m := traverseInlineBlocks cfg blks schemaPath m
            match refs? with
            | none => m
            | some .globalBlocks =>
                let inlineSlugs := blks.slugs
                cfg.blocks.foldl (fun m g =>
                  if inlineSlugs.contains g.slug then m
                  else
                    match mapGet m ("__global_blocks__." ++ g.slug) with
                    | some e => mapSet m (schemaPath ++ "." ++ g.slug) e
                    | none => m) m
            | some (.list refs) =>
                traverseRefBlocks cfg refs blks.slugs schemaPath m
        | .collapsible cfields =>
            traverseClientFields cfg cfields 0 indexPath parentSchemaPath m
        | .row rfields =>
            traverseClientFields cfg rfields 0 indexPath parentSchemaPath m
        | .group name? _ gfields =>
            if name?.isSome then
              traverseClientFields cfg gfields 0 "" schemaPath m
            else
              traverseClientFields cfg gfields 0 indexPath parentSchemaPath m
        | .tabs ts =>
            traverseClientTabs cfg ts 0 indexPath parentSchemaPath m
        | _ => m
      traverseClientFields cfg rest (index + 1) parentIndexPath parentSchemaPath m

/-- The inline-block loop of the blocks case: record the block under the
synthetic `<field path>.<slug>` and recurse into its fields. -/
def traverseInlineBlocks (cfg : ClientCfg) (bl : BlockList) (schemaPath : String)
    (m : CSchemaMap) : CSchemaMap :=
  match bl with
  | .nil => m
  | .cons (.mk bslug bfields) rest =>
      let blockSchemaPath := schemaPath ++ "." ++ bslug
      let m := mapSet m blockSchemaPath (.block (.mk bslug bfields))
      let m := traverseClientFields cfg bfields 0 "" blockSchemaPath m
      traverseInlineBlocks cfg rest schemaPath m

/-- The `blockReferences` loop of the blocks case: slugs shadowed by an inline
block are skipped; string references copy the entry already stored under the
reserved `__global_blocks__.<slug>` root (unknown slugs are silently skipped);
inline objects are recorded and traversed like inline blocks. -/
def traverseRefBlocks (cfg : ClientCfg) (rl : RefList) (inlineSlugs : List String)
    (schemaPath : String) (m : CSchemaMap) : CSchemaMap :=
  match rl with
  | .nil => m
  | .cons (.slug str) rest =>
      if inlineSlugs.contains str then
        traverseRefBlocks cfg rest inlineSlugs schemaPath m
      else
        match mapGet m ("__global_blocks__." ++ str) with
        | some e =>
            traverseRefBlocks cfg rest inlineSlugs schemaPath
              (mapSet m (schemaPath ++ "." ++ str) e)
        | none => traverseRefBlocks cfg rest inlineSlugs schemaPath m
  | .cons (.inlineBlock (.mk bslug bfields)) rest =>
      if inlineSlugs.contains bslug then
        traverseRefBlocks cfg rest inlineSlugs schemaPath m
      else
        traverseRefBlocks cfg rest inlineSlugs schemaPath
          (traverseClientFields cfg bfields 0 "" (schemaPath ++ "." ++ bslug)
            (mapSet m (schemaPath ++ "." ++ bslug) (.block (.mk bslug bfields))))

/-- The tabs case: named tabs recurse rooted at their own path, unnamed tabs in
place with their index-path. -/
def traverseClientTabs (cfg : ClientCfg) (ts : TabList) (tabIndex : Nat)
    (indexPath parentSchemaPath : String) (m : CSchemaMap) : CSchemaMap :=
  match ts with
  | .nil => m
  | .cons (.mk tname tloc tvirt tfields) rest =>
      let paths := getFieldPaths tname tabIndex indexPath parentSchemaPath
      let tabIndexPath := paths.1
      let tabSchemaPath := paths.2
      let m := mapSet m tabSchemaPath (.tab (.mk tname tloc tvirt tfields))
      let m :=
        if tname.isSome then traverseClientFields cfg tfields 0 "" tabSchemaPath m
        else traverseClientFields cfg tfields 0 tabIndexPath parentSchemaPath m
      traverseClientTabs cfg rest (tabIndex + 1) indexPath parentSchemaPath m

end

def FieldList.append : FieldList → FieldList → FieldList
  | .nil, l => l
  | .cons f rest, l => .cons f (rest.append l)

/-- The synthetic credential fields appended when a collection supports local
authentication. -/
def baseAuthFields : FieldList :=
  .cons (.text "password" { required := true } false)
    (.cons (.text "confirm-password" { required := true } false) .nil)

/-- `buildClientFieldSchemaMap`: pre-build the reserved `__global_blocks__`
entries for every global block, then flatten the matched collection's (or
global's) field tree. -/
def buildClientFieldSchemaMap (cfg : ClientCfg) (collectionSlug? globalSlug? : Option String) :
    CSchemaMap :=
  let m : CSchemaMap := []
  let m := cfg.blocks.foldl (fun m b =>
    let blockSchemaPath := "__global_blocks__." ++ b.slug
    let m := mapSet m blockSchemaPath (.block b)
    traverseClientFields cfg b.fields 0 "" blockSchemaPath m) m
  match collectionSlug? with
  | some cs =>
      match cfg.collections.find? (fun c => c.slug == cs) with
      | some col =>
          let fieldsToSet :=
            if col.authEnabled then col.fields.append baseAuthFields else col.fields
          let m := mapSet m cs (.fieldsOnly fieldsToSet)
          traverseClientFields cfg fieldsToSet 0 "" cs m
      | none => m
  | none =>
      match globalSlug? with
      | some gs =>
          match cfg.globalsList.find? (fun g => g.1 == gs) with
          | some g =>
              let m := mapSet m gs (.fieldsOnly g.2)
              traverseClientFields cfg g.2 0 "" gs m
          | none => m
      | none => m

/-- The slug list of an explicit reference list. -/
def RefList.slugsList : RefList → List String
  | .nil => []
  | .cons r rest => r.refSlug :: rest.slugsList

mutual

/-- Every `required` marker occurring anywhere in a descriptor
(`BaseOpts.required` plus the point descriptor's coordinates `required`). -/
def FieldSchema.requiredFlags : FieldSchema → List Bool
  | .scalar o _ _ _ => [o.required]
  | .listOf i => i.requiredFlags
  | .sub o s => o.required :: s.requiredFlagsM
  | .subArray o s => o.required :: s.requiredFlagsM
  | .bareSub s => s.requiredFlagsM
  | .blocksArr o => [o.required]
  | .pointEntry _ _ r _ => [r]
  | .localeRecord es => es.requiredFlagsL

def FSList.requiredFlagsL : FSList → List Bool
  | .nil => []
  | .cons _ e rest => e.requiredFlags ++ rest.requiredFlagsL

def BlockRef.requiredFlagsR : BlockRef → List Bool
  | .global _ => []
  | .inline s => s.requiredFlagsM

def DiscrimList.requiredFlagsD : DiscrimList → List Bool
  | .nil => []
  | .cons _ _ r rest => r.requiredFlagsR ++ rest.requiredFlagsD

def MSchema.requiredFlagsM : MSchema → List Bool
  | .mk _ entries discrims _ => entries.requiredFlagsL ++ discrims.requiredFlagsD

end

/-- The enumeration carried by a compiled descriptor (looking through the
select `hasMany` list wrapper). -/
def FieldSchema.enumList : FieldSchema → Option (List (Option String))
  | .scalar _ _ _ e => e
  | .listOf i => i.enumList
  | _ => none

/-- A base descriptor with its sparse marker erased. -/
def BaseOpts.eraseO (o : BaseOpts) : BaseOpts := { o with sparse := none }

mutual

/-- A descriptor with every sparse marker erased (the base descriptors' sparse
and the point descriptor's coordinates sparse). -/
def FieldSchema.eraseSparse : FieldSchema → FieldSchema
  | .scalar o t m e => .scalar o.eraseO t m e
  | .listOf i => .listOf i.eraseSparse
  | .sub o s => .sub o.eraseO s.eraseSparseM
  | .subArray o s => .subArray o.eraseO s.eraseSparseM
  | .bareSub s => .bareSub s.eraseSparseM
  | .blocksArr o => .blocksArr o.eraseO
  | .pointEntry d cd r _ => .pointEntry d cd r false
  | .localeRecord es => .localeRecord es.eraseSparseL

def FSList.eraseSparseL : FSList → FSList
  | .nil => .nil
  | .cons n e rest => .cons n e.eraseSparse rest.eraseSparseL

def BlockRef.eraseSparseR : BlockRef → BlockRef
  | .global s => .global s
  | .inline s => .inline s.eraseSparseM

def DiscrimList.eraseSparseD : DiscrimList → DiscrimList
  | .nil => .nil
  | .cons p s r rest => .cons p s r.eraseSparseR rest.eraseSparseD

def MSchema.eraseSparseM : MSchema → MSchema
  | .mk seed e d i => .mk seed e.eraseSparseL d.eraseSparseD i

end

/-- One collected variant pair with the sparse markers of its referenced
schema erased. -/
def pairErase (p : String × BlockRef) : String × BlockRef := (p.1, p.2.eraseSparseR)

/-- Field flags with the localized flag cleared. -/
def stripFlags (fl : FieldFlags) : FieldFlags := { fl with localized := false }

mutual

/-- A field tree with every localized flag cleared (fields and tabs alike). -/
def Field.stripLoc : Field → Field
  | .text n fl m => .text n (stripFlags fl) m
  | .number n fl m => .number n (stripFlags fl) m
  | .checkbox n fl => .checkbox n (stripFlags fl)
  | .select n fl opts m => .select n (stripFlags fl) opts m
  | .radio n fl opts => .radio n (stripFlags fl) opts
  | .point n fl => .point n (stripFlags fl)
  | .group n fl fs => .group n (stripFlags fl) fs.stripLocL
  | .array n fl fs => .array n (stripFlags fl) fs.stripLocL
  | .row fs => .row fs.stripLocL
  | .collapsible fs => .collapsible fs.stripLocL
  | .tabs ts => .tabs ts.stripLocTL
  | .blocks n fl bl refs? =>
      .blocks n (stripFlags fl) bl.stripLocBL
        (match refs? with
          | none => none
          | some .globalBlocks => some .globalBlocks
          | some (.list refs) => some (.list refs.stripLocRL))

def FieldList.stripLocL : FieldList → FieldList
  | .nil => .nil
  | .cons f rest => .cons f.stripLoc rest.stripLocL

def Tab.stripLocT : Tab → Tab
  | .mk n _ v fs => .mk n false v fs.stripLocL

def TabList.stripLocTL : TabList → TabList
  | .nil => .nil
  | .cons t rest => .cons t.stripLocT rest.stripLocTL

def Block.stripLocB : Block → Block
  | .mk s fs => .mk s fs.stripLocL

def BlockList.stripLocBL : BlockList → BlockList
  | .nil => .nil
  | .cons b rest => .cons b.stripLocB rest.stripLocBL

def BlockRefEntry.stripLocE : BlockRefEntry → BlockRefEntry
  | .slug s => .slug s
  | .inlineBlock b => .inlineBlock b.stripLocB

def RefList.stripLocRL : RefList → RefList
  | .nil => .nil
  | .cons r rest => .cons r.stripLocE rest.stripLocRL

end

/-- The same field with only its own localized flag set to the given value
(nested fields untouched) — the claim's "same field with the flag cleared". -/
def Field.setLocalized (f : Field) (b : Bool) : Field :=
  match f with
  | .text n fl m => .text n { fl with localized := b } m
  | .number n fl m => .number n { fl with localized := b } m
  | .checkbox n fl => .checkbox n { fl with localized := b }
  | .select n fl opts m => .select n { fl with localized := b } opts m
  | .radio n fl opts => .radio n { fl with localized := b } opts
  | .point n fl => .point n { fl with localized := b }
  | .group n fl fs => .group n { fl with localized := b } fs
  | .array n fl fs => .array n { fl with localized := b } fs
  | .row fs => .row fs
  | .collapsible fs => .collapsible fs
  | .tabs ts => .tabs ts
  | .blocks n fl bl refs? => .blocks n { fl with localized := b } bl refs?

/-- The sparse marker carried by a compiled descriptor (scalar descriptors). -/
def FieldSchema.sparseProj : FieldSchema → Option Bool
  | .scalar o _ _ _ => o.sparse
  | _ => none

end Payload

-- ### Theorems ###

namespace Payload

theorem formatBaseSchema_sparse_eq (o : BuildSchemaOptions) (f : Field) (pil : Bool) :
    (formatBaseSchema o f pil).sparse =
      (if (!o.disableUnique && f.flags.unique) &&
          (fieldShouldBeLocalized f.flags.localized pil || o.draftsEnabled ||
            (fieldAffectsData f && !f.isGroupOrTab && !f.flags.required)) then
        some true else none) := by
  unfold formatBaseSchema
  by_cases hh : f.flags.hidden <;>
    by_cases hc : ((!o.disableUnique && f.flags.unique) &&
      (fieldShouldBeLocalized f.flags.localized pil || o.draftsEnabled ||
        (fieldAffectsData f && !f.isGroupOrTab && !f.flags.required))) = true <;>
    simp [hh, hc]

/-- C4: a compiled base descriptor carries the sparse marker exactly when the
field's effective uniqueness holds (`unique` set and `disableUnique` not set)
and the field is localization-effective, or drafts are enabled, or the field
affects data, is not a group/tab, and is not required; in particular every
unique, non-required field compiled with drafts enabled gets `sparse = true`. -/
theorem sparse_iff_effective_unique_and_optionality :
    (∀ (o : BuildSchemaOptions) (f : Field) (pil : Bool),
      ((formatBaseSchema o f pil).sparse = some true ↔
        ((o.disableUnique = false ∧ f.flags.unique = true) ∧
          (fieldShouldBeLocalized f.flags.localized pil = true ∨ o.draftsEnabled = true ∨
            (fieldAffectsData f = true ∧ f.isGroupOrTab = false ∧
              f.flags.required = false))))) ∧
    (∀ (o : BuildSchemaOptions) (f : Field) (pil : Bool),
      o.draftsEnabled = true → o.disableUnique = false → f.flags.unique = true →
        (formatBaseSchema o f pil).sparse = some true) := by
  constructor
  · intro o f pil
    rw [formatBaseSchema_sparse_eq]
    constructor
    · intro h
      split at h
      · rename_i hcond
        simp only [Bool.and_eq_true, Bool.or_eq_true, Bool.not_eq_true'] at hcond
        tauto
      · exact Option.noConfusion h
    · intro h
      have hcond : ((!o.disableUnique && f.flags.unique) &&
          (fieldShouldBeLocalized f.flags.localized pil || o.draftsEnabled ||
            (fieldAffectsData f && !f.isGroupOrTab && !f.flags.required))) = true := by
        simp only [Bool.and_eq_true, Bool.or_eq_true, Bool.not_eq_true']
        tauto
      rw [hcond]
      rfl
  · intro o f pil hd hdu hu
    rw [formatBaseSchema_sparse_eq]
    simp [hd, hdu, hu]

/-- C4 witness. -/
theorem sparse_iff_effective_unique_and_optionality_witness :
    (formatBaseSchema { draftsEnabled := true } (.text "t" { unique := true } false) false).sparse =
      some true :=
  sparse_iff_effective_unique_and_optionality.2 { draftsEnabled := true }
    (.text "t" { unique := true } false) false rfl rfl rfl

theorem FSList.requiredFlagsL_addLast (l : FSList) (n : String) (e : FieldSchema) :
    (l.addLast n e).requiredFlagsL = l.requiredFlagsL ++ e.requiredFlags := by
  match l with
  | .nil => simp [FSList.addLast, FSList.requiredFlagsL]
  | .cons n' e' rest =>
      simp [FSList.addLast, FSList.requiredFlagsL, FSList.requiredFlagsL_addLast rest n e]

theorem DiscrimList.requiredFlagsD_addLast (d : DiscrimList) (p s : String) (r : BlockRef) :
    (d.addLast p s r).requiredFlagsD = d.requiredFlagsD ++ r.requiredFlagsR := by
  match d with
  | .nil => simp [DiscrimList.addLast, DiscrimList.requiredFlagsD]
  | .cons p' s' r' rest =>
      simp [DiscrimList.addLast, DiscrimList.requiredFlagsD,
        DiscrimList.requiredFlagsD_addLast rest p s r]

theorem MSchema.requiredFlagsM_addEntry (m : MSchema) (n : String) (e : FieldSchema) (b : Bool)
    (hb : b ∈ (m.addEntry n e).requiredFlagsM) :
    b ∈ m.requiredFlagsM ∨ b ∈ e.requiredFlags := by
  match m with
  | .mk seed es ds ix =>
      simp only [MSchema.addEntry, MSchema.requiredFlagsM, MSchema.entries, MSchema.seed,
        MSchema.discrims, MSchema.indexes, FSList.requiredFlagsL_addLast,
        List.mem_append] at hb ⊢
      tauto

theorem MSchema.requiredFlagsM_addDiscrim (m : MSchema) (p s : String) (r : BlockRef) (b : Bool)
    (hb : b ∈ (m.addDiscrim p s r).requiredFlagsM) :
    b ∈ m.requiredFlagsM ∨ b ∈ r.requiredFlagsR := by
  match m with
  | .mk seed es ds ix =>
      simp only [MSchema.addDiscrim, MSchema.requiredFlagsM, MSchema.entries, MSchema.seed,
        MSchema.discrims, MSchema.indexes, DiscrimList.requiredFlagsD_addLast,
        List.mem_append] at hb ⊢
      tauto

theorem MSchema.requiredFlagsM_addIndex (m : MSchema) (i : IndexSpec) :
    (m.addIndex i).requiredFlagsM = m.requiredFlagsM := by
  match m with
  | .mk seed es ds ix => rfl

theorem localeEntries_requiredFlags (codes : List String) (fs : FieldSchema) (b : Bool)
    (hb : b ∈ (localeEntries codes fs).requiredFlagsL) : b ∈ fs.requiredFlags := by
  induction codes with
  | nil => simp [localeEntries, FSList.requiredFlagsL] at hb
  | cons c rest ih =>
      simp only [localeEntries, List.foldr_cons, FSList.requiredFlagsL,
        List.mem_append] at hb
      rcases hb with hb | hb
      · exact hb
      · exact ih hb

theorem localizeSchema_requiredFlags (l : Bool) (fs : FieldSchema)
    (loc : Option Localization) (pil : Bool) (b : Bool)
    (hb : b ∈ (localizeSchema l fs loc pil).requiredFlags) : b ∈ fs.requiredFlags := by
  unfold localizeSchema at hb
  split at hb
  · split at hb
    · exact localeEntries_requiredFlags _ _ _ (by exact hb)
    · exact hb
  · exact hb

theorem formatBaseSchema_required_eq (o : BuildSchemaOptions) (f : Field) (pil : Bool) :
    (formatBaseSchema o f pil).required = false := by
  unfold formatBaseSchema
  by_cases hh : f.flags.hidden <;>
    by_cases hc : ((!o.disableUnique && f.flags.unique) &&
      (fieldShouldBeLocalized f.flags.localized pil || o.draftsEnabled ||
        (fieldAffectsData f && !f.isGroupOrTab && !f.flags.required))) = true <;>
    simp [hh, hc]

theorem attachOne_requiredFlags (fieldName : String) (fieldLocalized : Bool)
    (env : PayloadEnv) (pil : Bool) (p : String × BlockRef) (schema : MSchema) (b : Bool)
    (hb : b ∈ (attachOne fieldName fieldLocalized env pil schema p).requiredFlagsM) :
    b ∈ schema.requiredFlagsM ∨ b ∈ p.2.requiredFlagsR := by
  unfold attachOne at hb
  split at hb
  · rename_i loc _
    split at hb
    · revert hb
      generalize loc.localeCodes = codes
      induction codes generalizing schema with
      | nil => exact fun hb => Or.inl hb
      | cons c crest cih =>
          intro hb
          simp only [List.foldl_cons] at hb
          rcases cih (schema.addDiscrim (fieldName ++ "." ++ c) p.1 p.2) hb with h | h
          · exact MSchema.requiredFlagsM_addDiscrim _ _ _ _ _ h
          · exact Or.inr h
    · exact MSchema.requiredFlagsM_addDiscrim _ _ _ _ _ hb
  · exact MSchema.requiredFlagsM_addDiscrim _ _ _ _ _ hb

theorem attachDiscrims_requiredFlags (fieldName : String) (fieldLocalized : Bool)
    (env : PayloadEnv) (pil : Bool) (toAdd : List (String × BlockRef)) (schema : MSchema)
    (hs : ∀ b ∈ schema.requiredFlagsM, b = false)
    (ht : ∀ p ∈ toAdd, ∀ b ∈ p.2.requiredFlagsR, b = false) :
    ∀ b ∈ (attachDiscrims fieldName fieldLocalized env pil toAdd schema).requiredFlagsM,
      b = false := by
  induction toAdd generalizing schema with
  | nil => simpa [attachDiscrims] using hs
  | cons p rest ih =>
      intro b hb
      simp only [attachDiscrims, List.foldl_cons] at hb
      refine ih (attachOne fieldName fieldLocalized env pil schema p) ?_ ?_ b hb
      · intro b' hb'
        rcases attachOne_requiredFlags _ _ _ _ _ _ _ hb' with h | h
        · exact hs b' h
        · exact ht p (by simp) b' h
      · intro q hq
        exact ht q (by simp [hq])

theorem foldl_addIndex_requiredFlags (codes : List String) (mkIx : String → IndexSpec)
    (schema : MSchema) :
    (codes.foldl (fun s c => s.addIndex (mkIx c)) schema).requiredFlagsM =
      schema.requiredFlagsM := by
  induction codes generalizing schema with
  | nil => rfl
  | cons c rest ih => simp [List.foldl_cons, ih, MSchema.requiredFlagsM_addIndex]

theorem collectGlobalRefs_requiredFlags (gblocks : List Block) (gmap : SchemaMap)
    (acc : List (String × BlockRef)) (processed : List String)
    (hacc : ∀ p ∈ acc, ∀ b ∈ p.2.requiredFlagsR, b = false) :
    ∀ p ∈ (collectGlobalRefs gblocks gmap acc processed).1,
      ∀ b ∈ p.2.requiredFlagsR, b = false := by
  induction gblocks generalizing acc processed with
  | nil => simpa [collectGlobalRefs] using hacc
  | cons g rest ih =>
      unfold collectGlobalRefs
      split
      · exact ih acc processed hacc
      · split
        · refine ih _ _ ?_
          intro p hp
          rcases List.mem_append.mp hp with h | h
          · exact hacc p h
          · simp only [List.mem_singleton] at h
            subst h
            intro b hb
            simp [BlockRef.requiredFlagsR] at hb
        · exact ih acc processed hacc

mutual

theorem buildFields_requiredFlags (env : PayloadEnv) (o : BuildSchemaOptions)
    (dropId skipVirtual : Bool) (fs : FieldList) (pil : Bool) (acc : MSchema)
    (hacc : ∀ b ∈ acc.requiredFlagsM, b = false) :
    ∀ b ∈ (buildFields env o dropId skipVirtual fs pil acc).requiredFlagsM, b = false := by
  match fs with
  | .nil => simpa [buildFields] using hacc
  | .cons f rest =>
      unfold buildFields
      dsimp only
      split
      · exact buildFields_requiredFlags env o dropId skipVirtual rest pil acc hacc
      · split
        · exact buildFields_requiredFlags env o dropId skipVirtual rest pil acc hacc
        · exact buildFields_requiredFlags env o dropId skipVirtual rest pil _
            (addField_requiredFlags env o pil f acc hacc)

theorem addField_requiredFlags (env : PayloadEnv) (o : BuildSchemaOptions) (pil : Bool)
    (f : Field) (schema : MSchema)
    (hacc : ∀ b ∈ schema.requiredFlagsM, b = false) :
    ∀ b ∈ (addField env o pil f schema).requiredFlagsM, b = false := by
  match f with
  | .text n fl many =>
      intro b hb
      unfold addField at hb
      rcases MSchema.requiredFlagsM_addEntry _ _ _ _ hb with h | h
      · exact hacc b h
      · have := localizeSchema_requiredFlags _ _ _ _ _ h
        simp only [FieldSchema.requiredFlags, List.mem_singleton] at this
        rw [this]
        exact formatBaseSchema_required_eq ..
  | .number n fl many =>
      intro b hb
      unfold addField at hb
      rcases MSchema.requiredFlagsM_addEntry _ _ _ _ hb with h | h
      · exact hacc b h
      · have := localizeSchema_requiredFlags _ _ _ _ _ h
        simp only [FieldSchema.requiredFlags, List.mem_singleton] at this
        rw [this]
        exact formatBaseSchema_required_eq ..
  | .checkbox n fl =>
      intro b hb
      unfold addField at hb
      rcases MSchema.requiredFlagsM_addEntry _ _ _ _ hb with h | h
      · exact hacc b h
      · have := localizeSchema_requiredFlags _ _ _ _ _ h
        simp only [FieldSchema.requiredFlags, List.mem_singleton] at this
        rw [this]
        exact formatBaseSchema_required_eq ..
  | .select n fl opts many =>
      intro b hb
      unfold addField at hb
      rcases MSchema.requiredFlagsM_addEntry _ _ _ _ hb with h | h
      · exact hacc b h
      · have := localizeSchema_requiredFlags _ _ _ _ _ h
        have hflags : ∀ e : List (Option String),
            (if many then
              FieldSchema.listOf (.scalar (formatBaseSchema o (.select n fl opts many) pil)
                .string false (some e))
            else (.scalar (formatBaseSchema o (.select n fl opts many) pil)
                .string false (some e))).requiredFlags =
              [(formatBaseSchema o (.select n fl opts many) pil).required] := by
          intro e
          split <;> rfl
        rw [hflags] at this
        simp only [List.mem_singleton] at this
        rw [this]
        exact formatBaseSchema_required_eq ..
  | .radio n fl opts =>
      intro b hb
      unfold addField at hb
      rcases MSchema.requiredFlagsM_addEntry _ _ _ _ hb with h | h
      · exact hacc b h
      · have := localizeSchema_requiredFlags _ _ _ _ _ h
        simp only [FieldSchema.requiredFlags, List.mem_singleton] at this
        rw [this]
        exact formatBaseSchema_required_eq ..
  | .point n fl =>
      intro b hb
      unfold addField at hb
      dsimp only at hb
      have hbase : ∀ b' ∈ (schema.addEntry n (localizeSchema fl.localized
          (.pointEntry fl.defaultValue.isSome (formatDefaultValue fl) false
            (o.disableUnique && fl.unique && fieldShouldBeLocalized fl.localized pil))
          env.localization pil)).requiredFlagsM, b' = false := by
        intro b' hb'
        rcases MSchema.requiredFlagsM_addEntry _ _ _ _ hb' with h | h
        · exact hacc b' h
        · have := localizeSchema_requiredFlags _ _ _ _ _ h
          simp only [FieldSchema.requiredFlags, List.mem_singleton] at this
          exact this
      split at hb
      · split at hb
        · split at hb
          · rw [foldl_addIndex_requiredFlags] at hb
            exact hbase b hb
          · rcases (by rw [MSchema.requiredFlagsM_addIndex] at hb; exact hb :
                b ∈ (schema.addEntry n _).requiredFlagsM) with hb'
            exact hbase b hb'
        · rcases (by rw [MSchema.requiredFlagsM_addIndex] at hb; exact hb :
              b ∈ (schema.addEntry n _).requiredFlagsM) with hb'
          exact hbase b hb'
      · exact hbase b hb
  | .group (some n) fl gfields =>
      intro b hb
      unfold addField at hb
      dsimp only at hb
      rcases MSchema.requiredFlagsM_addEntry _ _ _ _ hb with h | h
      · exact hacc b h
      · have := localizeSchema_requiredFlags _ _ _ _ _ h
        simp only [FieldSchema.requiredFlags, List.mem_cons] at this
        rcases this with h' | h'
        · rw [h']
          exact formatBaseSchema_required_eq ..
        · exact buildFields_requiredFlags env _ _ true gfields (pil || fl.localized) _
            (by intro b' hb'; cases (findIdField gfields) <;> simp [MSchema.withSeed,
              MSchema.requiredFlagsM, FSList.requiredFlagsL,
              DiscrimList.requiredFlagsD] at hb') b h'
  | .group none fl gfields =>
      intro b hb
      unfold addField at hb
      exact buildFields_requiredFlags env o false true gfields (pil || fl.localized)
        schema hacc b hb
  | .array n fl afields =>
      intro b hb
      unfold addField at hb
      rcases MSchema.requiredFlagsM_addEntry _ _ _ _ hb with h | h
      · exact hacc b h
      · have := localizeSchema_requiredFlags _ _ _ _ _ h
        simp only [FieldSchema.requiredFlags, List.mem_cons] at this
        rcases this with h' | h'
        · rw [h']
          exact formatBaseSchema_required_eq ..
        · exact buildFields_requiredFlags env _ false true afields (pil || fl.localized)
            MSchema.empty (by intro b' hb'; simp [MSchema.empty, MSchema.requiredFlagsM,
              FSList.requiredFlagsL, DiscrimList.requiredFlagsD] at hb') b h'
  | .row rfields =>
      intro b hb
      unfold addField at hb
      exact buildFields_requiredFlags env o false true rfields pil schema hacc b hb
  | .collapsible cfields =>
      intro b hb
      unfold addField at hb
      exact buildFields_requiredFlags env o false true cfields pil schema hacc b hb
  | .tabs ts =>
      intro b hb
      unfold addField at hb
      exact buildTabs_requiredFlags env o pil ts schema hacc b hb
  | .blocks n fl blks refs? =>
      intro b hb
      unfold addField at hb
      dsimp only at hb
      have hbase : ∀ b' ∈ (schema.addEntry n (localizeSchema fl.localized
          (.blocksArr (formatBaseSchema o (.blocks n fl blks refs?) pil))
          env.localization pil)).requiredFlagsM, b' = false := by
        intro b' hb'
        rcases MSchema.requiredFlagsM_addEntry _ _ _ _ hb' with h | h
        · exact hacc b' h
        · have := localizeSchema_requiredFlags _ _ _ _ _ h
          simp only [FieldSchema.requiredFlags, List.mem_singleton] at this
          rw [this]
          exact formatBaseSchema_required_eq ..
      have h1 : ∀ p ∈ (collectInline env o (pil || fl.localized) blks [] []).1,
          ∀ b' ∈ p.2.requiredFlagsR, b' = false :=
        collectInline_requiredFlags env o (pil || fl.localized) blks [] []
          (by intro p hp; simp at hp)
      have h2 : ∀ p ∈ (match refs? with
          | none => collectInline env o (pil || fl.localized) blks [] []
          | some .globalBlocks =>
              collectGlobalRefs env.blocks env.globalBlockSchemas
                (collectInline env o (pil || fl.localized) blks [] []).1
                (collectInline env o (pil || fl.localized) blks [] []).2
          | some (.list refs) =>
              collectRefs env o (pil || fl.localized) env.globalBlockSchemas refs
                (collectInline env o (pil || fl.localized) blks [] []).1
                (collectInline env o (pil || fl.localized) blks [] []).2).1,
          ∀ b' ∈ p.2.requiredFlagsR, b' = false := by
        match refs? with
        | none => exact h1
        | some .globalBlocks => exact collectGlobalRefs_requiredFlags _ _ _ _ h1
        | some (.list refs) => exact collectRefs_requiredFlags env o _ _ refs _ _ h1
      exact attachDiscrims_requiredFlags _ _ _ _ _ _ hbase h2 b hb

theorem collectInline_requiredFlags (env : PayloadEnv) (o : BuildSchemaOptions)
    (pilForBlocks : Bool) (bl : BlockList) (acc : List (String × BlockRef))
    (processed : List String)
    (hacc : ∀ p ∈ acc, ∀ b ∈ p.2.requiredFlagsR, b = false) :
    ∀ p ∈ (collectInline env o pilForBlocks bl acc processed).1,
      ∀ b ∈ p.2.requiredFlagsR, b = false := by
  match bl with
  | .nil => simpa [collectInline] using hacc
  | .cons (.mk bslug bfields) rest =>
      unfold collectInline
      refine collectInline_requiredFlags env o pilForBlocks rest _ _ ?_
      intro p hp
      rcases List.mem_append.mp hp with h | h
      · exact hacc p h
      · simp only [List.mem_singleton] at h
        subst h
        intro b hb
        simp only [BlockRef.requiredFlagsR] at hb
        exact buildFields_requiredFlags env o false false bfields pilForBlocks MSchema.empty
          (by intro b' hb'; simp [MSchema.empty, MSchema.requiredFlagsM,
            FSList.requiredFlagsL, DiscrimList.requiredFlagsD] at hb') b hb

theorem collectRefs_requiredFlags (env : PayloadEnv) (o : BuildSchemaOptions)
    (pilForBlocks : Bool) (gmap : SchemaMap) (rl : RefList)
    (acc : List (String × BlockRef)) (processed : List String)
    (hacc : ∀ p ∈ acc, ∀ b ∈ p.2.requiredFlagsR, b = false) :
    ∀ p ∈ (collectRefs env o pilForBlocks gmap rl acc processed).1,
      ∀ b ∈ p.2.requiredFlagsR, b = false := by
  match rl with
  | .nil => simpa [collectRefs] using hacc
  | .cons (.inlineBlock (.mk bslug bfields)) rest =>
      unfold collectRefs
      dsimp only
      split
      · exact collectRefs_requiredFlags env o pilForBlocks gmap rest acc processed hacc
      · refine collectRefs_requiredFlags env o pilForBlocks gmap rest _ _ ?_
        intro p hp
        rcases List.mem_append.mp hp with h | h
        · exact hacc p h
        · simp only [List.mem_singleton] at h
          subst h
          intro b hb
          simp only [BlockRef.requiredFlagsR] at hb
          exact buildFields_requiredFlags env o false false bfields pilForBlocks
            MSchema.empty (by intro b' hb'; simp [MSchema.empty, MSchema.requiredFlagsM,
              FSList.requiredFlagsL, DiscrimList.requiredFlagsD] at hb') b hb
  | .cons (.slug str) rest =>
      unfold collectRefs
      split
      · exact collectRefs_requiredFlags env o pilForBlocks gmap rest acc processed hacc
      · split
        · refine collectRefs_requiredFlags env o pilForBlocks gmap rest _ _ ?_
          intro p hp
          rcases List.mem_append.mp hp with h | h
          · exact hacc p h
          · simp only [List.mem_singleton] at h
            subst h
            intro b hb
            simp [BlockRef.requiredFlagsR] at hb
        · exact collectRefs_requiredFlags env o pilForBlocks gmap rest acc processed hacc

theorem buildTabs_requiredFlags (env : PayloadEnv) (o : BuildSchemaOptions) (pil : Bool)
    (ts : TabList) (schema : MSchema)
    (hacc : ∀ b ∈ schema.requiredFlagsM, b = false) :
    ∀ b ∈ (buildTabs env o pil ts schema).requiredFlagsM, b = false := by
  match ts with
  | .nil => simpa [buildTabs] using hacc
  | .cons (.mk (some tn) tloc tvirt tfields) rest =>
      unfold buildTabs
      dsimp only
      split
      · exact buildTabs_requiredFlags env o pil rest schema hacc
      · refine buildTabs_requiredFlags env o pil rest _ ?_
        intro b hb
        rcases MSchema.requiredFlagsM_addEntry _ _ _ _ hb with h | h
        · exact hacc b h
        · have := localizeSchema_requiredFlags _ _ _ _ _ h
          simp only [FieldSchema.requiredFlags] at this
          exact buildFields_requiredFlags env _ _ true tfields (pil || tloc) _
            (by intro b' hb'; cases (findIdField tfields) <;> simp [MSchema.withSeed,
              MSchema.requiredFlagsM, FSList.requiredFlagsL,
              DiscrimList.requiredFlagsD] at hb') b this
  | .cons (.mk none tloc tvirt tfields) rest =>
      unfold buildTabs
      exact buildTabs_requiredFlags env o pil rest _
        (buildFields_requiredFlags env o false true tfields (pil || tloc) schema hacc)

end

theorem addCompoundIndexes_requiredFlags (env : PayloadEnv) (o : BuildSchemaOptions)
    (cis : List CompoundIndex) (s : MSchema) :
    (addCompoundIndexes env o cis s).requiredFlagsM = s.requiredFlagsM := by
  induction cis generalizing s with
  | nil => rfl
  | cons ci rest ih =>
      simp only [addCompoundIndexes, List.foldl_cons] at *
      rw [ih, MSchema.requiredFlagsM_addIndex]

/-- C9: the base-descriptor routine sets `required` to `false` regardless of the
field's `required` flag, and — consequently — no descriptor anywhere in a
compiled storage schema (including the point descriptor's `coordinates` and the
descriptors inside nested sub-schemas and inline block schemas) carries
`required = true`: the compiled storage schema never enforces requiredness. -/
theorem required_never_enforced :
    (∀ (o : BuildSchemaOptions) (f : Field) (pil : Bool),
        (formatBaseSchema o f pil).required = false) ∧
    (∀ (env : PayloadEnv) (o : BuildSchemaOptions) (ci : List CompoundIndex)
        (fs : FieldList) (pil : Bool),
        ∀ b ∈ (buildSchema env o ci fs pil).requiredFlagsM, b = false) := by
  refine ⟨formatBaseSchema_required_eq, ?_⟩
  intro env o ci fs pil b hb
  unfold buildSchema at hb
  rw [addCompoundIndexes_requiredFlags] at hb
  refine buildFields_requiredFlags env o _ true fs pil _ ?_ b hb
  intro b' hb'
  rcases (if o.allowIDField then none else findIdField fs) with _ | g <;>
    simp [MSchema.withSeed, MSchema.requiredFlagsM, FSList.requiredFlagsL,
      DiscrimList.requiredFlagsD] at hb'

/-- C9 witness. -/
theorem required_never_enforced_witness :
    false ∈ (buildSchema {} {} [] (.cons (.text "t" {} false) .nil) false).requiredFlagsM ∧
      false = false :=
  ⟨by decide, required_never_enforced.2 {} {} []
    (.cons (.text "t" {} false) .nil) false false (by decide)⟩

theorem MSchema.indexes_addEntry (m : MSchema) (n : String) (e : FieldSchema) :
    (m.addEntry n e).indexes = m.indexes := by
  cases m
  rfl

theorem MSchema.indexes_addIndex (m : MSchema) (i : IndexSpec) :
    (m.addIndex i).indexes = m.indexes ++ [i] := by
  cases m
  rfl

theorem foldl_addIndex_indexes (codes : List String) (mkIx : String → IndexSpec)
    (s : MSchema) :
    (codes.foldl (fun s c => s.addIndex (mkIx c)) s).indexes =
      s.indexes ++ codes.map mkIx := by
  induction codes generalizing s with
  | nil => simp
  | cons c rest ih =>
      simp only [List.foldl_cons, List.map_cons, ih, MSchema.indexes_addIndex]
      simp

/-- C10: for a geo-point field whose index is not explicitly disabled and whose
unique flag is set while uniqueness is not globally disabled, every emitted
spatial (2dsphere) index carries both `unique := true` and `sparse := true` —
for every choice of `required`, `draftsEnabled`, localization and parent
localization — and at least one spatial index is emitted. -/
theorem MSchema.indexes_empty : MSchema.empty.indexes = [] := rfl

/-- C10: for a geo-point field whose index is not explicitly disabled and whose
unique flag is set while uniqueness is not globally disabled, every emitted
spatial (2dsphere) index carries both `unique := true` and `sparse := true` —
for every choice of `required`, `draftsEnabled`, localization and parent
localization — and at least one spatial index is emitted. -/
theorem point_spatial_index_always_unique_sparse
    (env : PayloadEnv) (o : BuildSchemaOptions) (pil : Bool) (n : String) (fl : FieldFlags)
    (hidx : fl.index ≠ some false) (hu : fl.unique = true) (hdu : o.disableUnique = false)
    (hloc : ∀ loc, env.localization = some loc → loc.localeCodes ≠ []) :
    (∀ ix ∈ (addField env o pil (.point n fl) MSchema.empty).indexes,
        ix.opts = { unique := some true, sparse := some true }) ∧
    (addField env o pil (.point n fl) MSchema.empty).indexes ≠ [] := by
  have hidx' : fl.index.getD true = true := by
    cases h : fl.index with
    | none => rfl
    | some b =>
        cases b with
        | false => exact absurd h hidx
        | true => rfl
  unfold addField
  simp only [hidx', if_true, hdu, hu, Bool.not_false, Bool.and_self, Bool.and_true]
  cases henv : env.localization with
  | none =>
      dsimp only
      rw [MSchema.indexes_addIndex, MSchema.indexes_addEntry, MSchema.indexes_empty,
        List.nil_append]
      constructor
      · intro ix hix
        rw [List.mem_singleton] at hix
        rw [hix]
      · simp
  | some loc =>
      dsimp only
      by_cases hfsl : fieldShouldBeLocalized fl.localized pil = true
      · rw [if_pos hfsl]
        rw [foldl_addIndex_indexes loc.localeCodes
          (fun c => (⟨[(n ++ "." ++ c, IndexKind.twodsphere)],
            { unique := some true, sparse := some true }⟩ : IndexSpec))]
        rw [MSchema.indexes_addEntry, MSchema.indexes_empty, List.nil_append]
        constructor
        · intro ix hix
          obtain ⟨c, _, hc⟩ := List.mem_map.mp hix
          rw [← hc]
        · cases hcodes : loc.localeCodes with
          | nil => exact absurd hcodes (hloc loc henv)
          | cons c cs => simp [hcodes]
      · rw [if_neg hfsl]
        rw [MSchema.indexes_addIndex, MSchema.indexes_addEntry, MSchema.indexes_empty,
          List.nil_append]
        constructor
        · intro ix hix
          rw [List.mem_singleton] at hix
          rw [hix]
        · simp

/-- C10 witness. -/
theorem point_spatial_index_always_unique_sparse_witness :
    (∀ ix ∈ (addField {} {} false (.point "loc" { unique := true }) MSchema.empty).indexes,
        ix.opts = { unique := some true, sparse := some true }) ∧
    (addField {} {} false (.point "loc" { unique := true }) MSchema.empty).indexes ≠ [] :=
  point_spatial_index_always_unique_sparse {} {} false "loc" { unique := true }
    (by decide) rfl rfl (by intro loc h; cases h)

theorem none_not_mem_unwrapped (opts : List FOption) :
    Option.none ∉ opts.map (fun opt => some opt.unwrap) := by
  intro h
  obtain ⟨a, _, ha⟩ := List.mem_map.mp h
  exact Option.noConfusion ha

/-- C6 counterexample: a radio field that is not required (and with drafts
disabled) compiles to an enumeration with no null sentinel, although the claim
asserts that radio enumerations contain the sentinel exactly when drafts are
enabled or the field is not required. -/
theorem radio_enum_missing_null_sentinel :
    ((addField {} {} false (.radio "r" {} [FOption.plain "a"])
        MSchema.empty).entries.lookup "r").bind FieldSchema.enumList =
      some [some "a"] ∧
    Option.none ∉ [Option.some "a"] := by
  exact ⟨rfl, by decide⟩

/-- C6 amended: a compiled select enumeration consists of the field's option
values (label/value pairs unwrapped to the bare value) followed by a null
sentinel exactly when drafts are enabled or the field is not required; a
compiled radio enumeration consists of the unwrapped option values only, and
never contains the null sentinel. -/
theorem select_radio_enum :
    (∀ (bs : List Block) (gm : SchemaMap) (bi : Bool) (o : BuildSchemaOptions) (pil : Bool)
        (n : String) (fl : FieldFlags) (opts : List FOption) (many : Bool),
      ((addField ⟨none, bs, gm, bi⟩ o pil (.select n fl opts many)
          MSchema.empty).entries.lookup n).bind FieldSchema.enumList =
        some ((opts.map fun opt => some opt.unwrap) ++
          (if o.draftsEnabled || !fl.required then [none] else [])) ∧
      (Option.none ∈ ((opts.map fun opt => some opt.unwrap) ++
          (if o.draftsEnabled || !fl.required then [none] else [])) ↔
        (o.draftsEnabled = true ∨ fl.required = false))) ∧
    (∀ (bs : List Block) (gm : SchemaMap) (bi : Bool) (o : BuildSchemaOptions) (pil : Bool)
        (n : String) (fl : FieldFlags) (opts : List FOption),
      ((addField ⟨none, bs, gm, bi⟩ o pil (.radio n fl opts)
          MSchema.empty).entries.lookup n).bind FieldSchema.enumList =
        some (opts.map fun opt => some opt.unwrap) ∧
      Option.none ∉ (opts.map fun opt => some opt.unwrap)) := by
  constructor
  · intro bs gm bi o pil n fl opts many
    constructor
    · unfold addField
      dsimp only
      cases many <;>
        simp [localizeSchema, MSchema.addEntry, MSchema.empty, MSchema.entries,
          FSList.addLast, FSList.lookup, FieldSchema.enumList] <;>
        split <;> simp
    · constructor
      · intro h
        rcases List.mem_append.mp h with h | h
        · exact absurd h (none_not_mem_unwrapped opts)
        · by_cases hc : (o.draftsEnabled || !fl.required) = true
          · rcases Bool.or_eq_true _ _ ▸ hc with h' | h'
            · exact Or.inl h'
            · exact Or.inr (by simpa using h')
          · rw [if_neg hc] at h
            simp at h
      · intro h
        refine List.mem_append.mpr (Or.inr ?_)
        have hc : (o.draftsEnabled || !fl.required) = true := by
          rcases h with h | h <;> simp [h]
        rw [if_pos hc]
        simp
  · intro bs gm bi o pil n fl opts
    constructor
    · unfold addField
      simp [localizeSchema, MSchema.addEntry, MSchema.empty, MSchema.entries,
        FSList.addLast, FSList.lookup, FieldSchema.enumList]
    · exact none_not_mem_unwrapped opts

/-- C6 witness. -/
theorem select_radio_enum_witness :
    ((addField ⟨none, [], [], false⟩ {} false (.select "s" {} [.plain "a"] false)
        MSchema.empty).entries.lookup "s").bind FieldSchema.enumList =
      some [some "a", none] :=
  (select_radio_enum.1 [] [] false {} false "s" {} [.plain "a"] false).1

theorem BlockList.find?_eq_none (bl : BlockList) (bt : String) (h : bt ∉ bl.slugs) :
    bl.find? bt = none := by
  match bl with
  | .nil => rfl
  | .cons b rest =>
      simp only [BlockList.slugs, List.mem_cons, not_or] at h
      unfold BlockList.find?
      rw [if_neg fun hc => h.1 hc.symm]
      exact BlockList.find?_eq_none rest bt h.2

theorem findGlobal_eq_none (gblocks : List Block) (bt : String)
    (h : bt ∉ gblocks.map Block.slug) : findGlobal gblocks bt = none := by
  unfold findGlobal
  rw [List.find?_eq_none]
  intro b hb
  simp only [beq_iff_eq]
  intro hc
  exact h (List.mem_map.mpr ⟨b, hb, hc⟩)

theorem resolveInRefs_eq_none (gblocks : List Block) (bt : String) (rl : RefList)
    (h : bt ∉ rl.slugsList) : resolveInRefs gblocks bt rl = none := by
  match rl with
  | .nil => rfl
  | .cons (.slug str) rest =>
      simp only [RefList.slugsList, BlockRefEntry.refSlug, List.mem_cons, not_or] at h
      unfold resolveInRefs
      rw [if_neg fun hc => h.1 hc.symm]
      exact resolveInRefs_eq_none gblocks bt rest h.2
  | .cons (.inlineBlock b) rest =>
      simp only [RefList.slugsList, BlockRefEntry.refSlug, List.mem_cons, not_or] at h
      unfold resolveInRefs
      rw [if_neg fun hc => h.1 hc.symm]
      exact resolveInRefs_eq_none gblocks bt rest h.2

/-- C7: `resolveBlock` is a total function into an option type — a miss is the
explicit `none`, never an exception. When no variant matches (the slug is not
an inline variant, not a global variant, and not among the listed entries) the
result is `none`; and under an explicit-subset policy, a slug that is neither
an inline variant nor among the listed entries resolves to `none` even when a
global variant with that slug exists. -/
theorem resolve_miss_is_none :
    (∀ (env : PayloadEnv) (bt : String) (blks : BlockList) (refs? : Option BlockRefs),
      bt ∉ blks.slugs → bt ∉ env.blocks.map Block.slug →
      (∀ refs, refs? = some (.list refs) → bt ∉ refs.slugsList) →
      resolveBlock env bt blks refs? = none) ∧
    (∀ (env : PayloadEnv) (bt : String) (blks : BlockList) (refs : RefList),
      bt ∉ blks.slugs → bt ∉ refs.slugsList →
      resolveBlock env bt blks (some (.list refs)) = none) := by
  constructor
  · intro env bt blks refs? h1 h2 h3
    unfold resolveBlock
    rw [BlockList.find?_eq_none blks bt h1]
    match refs? with
    | none => rfl
    | some .globalBlocks => exact findGlobal_eq_none env.blocks bt h2
    | some (.list refs) => exact resolveInRefs_eq_none env.blocks bt refs (h3 refs rfl)
  · intro env bt blks refs h1 h3
    unfold resolveBlock
    rw [BlockList.find?_eq_none blks bt h1]
    exact resolveInRefs_eq_none env.blocks bt refs h3

/-- C7 witness: a slug that exists globally but is neither inline nor listed
resolves to `none` under an explicit-subset policy. -/
theorem resolve_miss_is_none_witness :
    resolveBlock { blocks := [Block.mk "z" .nil] } "z" .nil
      (some (.list (.cons (.slug "g") .nil))) = none :=
  resolve_miss_is_none.2 { blocks := [Block.mk "z" .nil] } "z" .nil
    (.cons (.slug "g") .nil) (by decide) (by decide)

/-- C3: compiling `[{id: number}, {title: text, unique}]` with
`allowIDField = false` seeds the primary identifier `_id` with the custom
numeric type (never the surrogate `ObjectId` or `String`), removes `id` from
the normal field list, leaves `title` out of the constructor seed, and stores
`title` with a unique and sparse index. -/
theorem custom_id_extraction_and_unique_title (bi : Bool) :
    (buildSchema { useBigIntForNumberIDs := bi } {} []
        (.cons (.number "id" {} false)
          (.cons (.text "title" { unique := true } false) .nil)) false).seed =
      [("_id", if bi then SType.bigint else SType.number)] ∧
    (if bi then SType.bigint else SType.number) ≠ SType.objectId ∧
    (if bi then SType.bigint else SType.number) ≠ SType.string ∧
    "id" ∉ (buildSchema { useBigIntForNumberIDs := bi } {} []
        (.cons (.number "id" {} false)
          (.cons (.text "title" { unique := true } false) .nil)) false).entries.names ∧
    "title" ∉ ((buildSchema { useBigIntForNumberIDs := bi } {} []
        (.cons (.number "id" {} false)
          (.cons (.text "title" { unique := true } false) .nil)) false).seed.map
        Prod.fst) ∧
    (buildSchema { useBigIntForNumberIDs := bi } {} []
        (.cons (.number "id" {} false)
          (.cons (.text "title" { unique := true } false) .nil)) false).entries.lookup
        "title" =
      some (.scalar { index := true, unique := true, sparse := some true } .string false
        none) := by
  cases bi <;> exact ⟨rfl, by decide, by decide, by decide, by decide, rfl⟩

theorem mapGet_mapSet {α : Type} (m : List (String × α)) (k : String) (v : α)
    (k' : String) :
    mapGet (mapSet m k v) k' = if k' = k then some v else mapGet m k' := by
  induction m with
  | nil =>
      by_cases h : k = k'
      · simp [mapSet, mapGet, h]
      · have h' : ¬ k' = k := fun hc => h hc.symm
        simp [mapSet, mapGet, h, h']
  | cons p rest ih =>
      obtain ⟨pk, pv⟩ := p
      by_cases hpk : pk = k
      · subst hpk
        by_cases h2 : pk = k'
        · simp [mapSet, mapGet, h2]
        · have h2' : ¬ k' = pk := fun hc => h2 hc.symm
          simp [mapSet, mapGet, h2, h2']
      · by_cases ha : pk = k'
        · have hb : ¬ k' = k := fun hc => hpk (ha.trans hc)
          simp [mapSet, mapGet, hpk, ha, hb]
        · by_cases hb : k' = k
          · subst hb
            simp [mapSet, mapGet, hpk, ha, ih]
          · simp [mapSet, mapGet, hpk, ha, hb, ih]

theorem mapGet_pass1_foldl (bl : List Block) (acc : SchemaMap) (slug : String) :
    mapGet (bl.foldl (fun m b => mapSet m b.slug MSchema.empty) acc) slug =
      if slug ∈ bl.map Block.slug then some MSchema.empty else mapGet acc slug := by
  induction bl generalizing acc with
  | nil => simp
  | cons b rest ih =>
      simp only [List.foldl_cons, List.map_cons, List.mem_cons]
      rw [ih]
      by_cases h1 : slug ∈ rest.map Block.slug
      · simp [h1]
      · by_cases h2 : slug = b.slug
        · simp [h1, h2, mapGet_mapSet]
        · simp [h1, h2, mapGet_mapSet]

/-- C1: pass 1 of the registry build allocates exactly one empty slug-keyed
shell per declared global variant (a lookup yields the empty shell precisely
for declared slugs, before any population); and, end to end, with global
variants `x` (holding an all-global blocks field) and `y`, the build terminates
with `x`'s shell carrying both `x` (its own slug) and `y` as discriminator
choices on the nested field's path, each attached as a by-slug reference to the
pre-built global shell — never as a recompiled inline schema. -/
theorem two_pass_registry_build :
    (∀ (blocks : List Block) (slug : String),
      mapGet (pass1Shells blocks) slug =
        if slug ∈ blocks.map Block.slug then some MSchema.empty else none) ∧
    (mapGet (buildGlobalBlockSchemas
        { blocks := [Block.mk "x"
            (.cons (.blocks "content" {} .nil (some .globalBlocks)) .nil),
          Block.mk "y" (.cons (.text "t" {} false) .nil)] } {}) "x" =
      some (.mk [] (.cons "content" (.blocksArr {}) .nil)
        (.cons "content" "x" (.global "x") (.cons "content" "y" (.global "y") .nil)) [])) ∧
    (mapGet (buildGlobalBlockSchemas
        { blocks := [Block.mk "x"
            (.cons (.blocks "content" {} .nil (some .globalBlocks)) .nil),
          Block.mk "y" (.cons (.text "t" {} false) .nil)] } {}) "y" =
      some (.mk [] (.cons "t" (.scalar {} .string false none) .nil) .nil [])) := by
  refine ⟨?_, rfl, rfl⟩
  intro blocks slug
  unfold pass1Shells
  rw [mapGet_pass1_foldl]
  simp [mapGet]

theorem blockList_slugsOf (bl : BlockList) :
    (bl.toList.map BlockOrSlug.block).map BlockOrSlug.slugOf = bl.slugs := by
  match bl with
  | .nil => rfl
  | .cons b rest =>
      simp [BlockList.toList, BlockList.slugs, BlockOrSlug.slugOf, blockList_slugsOf rest]

theorem foldl_pushGlobal_slugs (gb : List Block) (is : List String)
    (acc : List BlockOrSlug) :
    ((gb.foldl (fun res g => if is.contains g.slug then res else res ++ [.block g])
        acc).map BlockOrSlug.slugOf) =
      acc.map BlockOrSlug.slugOf ++
        ((gb.filter (fun g => !is.contains g.slug)).map Block.slug) := by
  induction gb generalizing acc with
  | nil => simp
  | cons g rest ih =>
      rw [List.foldl_cons, List.filter_cons]
      cases hcb : is.contains g.slug with
      | true =>
          simp only [Bool.not_true, eq_self_iff_true, if_true, Bool.false_eq_true, if_false]
          exact ih acc
      | false =>
          simp only [Bool.not_false, eq_self_iff_true, if_true, Bool.false_eq_true, if_false]
          rw [ih (acc ++ [BlockOrSlug.block g])]
          simp [BlockOrSlug.slugOf]

theorem refsAvailable_slugs (rl : RefList) (acc : List BlockOrSlug) (is : List String) :
    (refsAvailable rl acc is).map BlockOrSlug.slugOf =
      acc.map BlockOrSlug.slugOf ++ rl.slugsList.filter (fun str => !is.contains str) := by
  match rl with
  | .nil => simp [refsAvailable, RefList.slugsList]
  | .cons (.slug str) rest =>
      unfold refsAvailable
      rw [show RefList.slugsList (.cons (.slug str) rest) =
        str :: rest.slugsList from rfl]
      rw [List.filter_cons]
      cases hcb : is.contains str with
      | true =>
          simp only [Bool.not_true, eq_self_iff_true, if_true, Bool.false_eq_true, if_false]
          exact refsAvailable_slugs rest acc is
      | false =>
          simp only [Bool.not_false, eq_self_iff_true, if_true, Bool.false_eq_true, if_false]
          rw [refsAvailable_slugs rest (acc ++ [BlockOrSlug.slugRef str]) is]
          simp [BlockOrSlug.slugOf]
  | .cons (.inlineBlock b) rest =>
      unfold refsAvailable
      rw [show RefList.slugsList (.cons (.inlineBlock b) rest) =
        b.slug :: rest.slugsList from rfl]
      rw [List.filter_cons]
      cases hcb : is.contains b.slug with
      | true =>
          simp only [Bool.not_true, eq_self_iff_true, if_true, Bool.false_eq_true, if_false]
          exact refsAvailable_slugs rest acc is
      | false =>
          simp only [Bool.not_false, eq_self_iff_true, if_true, Bool.false_eq_true, if_false]
          rw [refsAvailable_slugs rest (acc ++ [BlockOrSlug.block b]) is]
          simp [BlockOrSlug.slugOf]

/-- C2 counterexample: under an explicit-subset policy, an (upstream-valid)
reference list naming the same global slug twice yields that slug twice in the
available-variants list — the returned list is deduplicated only against the
inline slugs, so the claim that under every reference policy no slug appears
more than once fails. -/
theorem duplicate_listed_slugs_not_deduplicated :
    ((getBlocksForField { blocks := [Block.mk "g" .nil] } .nil
        (some (.list (.cons (.slug "g") (.cons (.slug "g") .nil))))).map
      BlockOrSlug.slugOf) = ["g", "g"] ∧
    ¬ (((getBlocksForField { blocks := [Block.mk "g" .nil] } .nil
        (some (.list (.cons (.slug "g") (.cons (.slug "g") .nil))))).map
      BlockOrSlug.slugOf).Nodup) := by
  refine ⟨rfl, ?_⟩
  intro h
  rw [show ((getBlocksForField { blocks := [Block.mk "g" .nil] } .nil
      (some (.list (.cons (.slug "g") (.cons (.slug "g") .nil))))).map
      BlockOrSlug.slugOf) = ["g", "g"] from rfl] at h
  simp at h

/-- C2 amended: inline variants always win resolution (an inline variant found
by slug is what `resolveBlock` returns, under every policy); the all-global
available-variants list is the inline slugs followed by the unclaimed global
slugs, and — whenever the inline slugs and the global slugs are each
duplicate-free, as sanitization guarantees — it is duplicate-free with a shared
slug appearing exactly once, as is the no-policy list; an explicit-subset list,
however, is deduplicated only against the inline slugs, so duplicates among
the listed entries themselves survive. -/
theorem available_variants_precedence_and_dedup :
    (∀ (env : PayloadEnv) (bt : String) (blks : BlockList) (refs? : Option BlockRefs)
        (b : Block), blks.find? bt = some b → resolveBlock env bt blks refs? = some b) ∧
    (∀ (env : PayloadEnv) (blks : BlockList),
      (getBlocksForField env blks (some .globalBlocks)).map BlockOrSlug.slugOf =
        blks.slugs ++
          (env.blocks.filter (fun g => !blks.slugs.contains g.slug)).map Block.slug) ∧
    (∀ (env : PayloadEnv) (blks : BlockList),
      blks.slugs.Nodup → (env.blocks.map Block.slug).Nodup →
        ((getBlocksForField env blks none).map BlockOrSlug.slugOf).Nodup ∧
        ((getBlocksForField env blks (some .globalBlocks)).map BlockOrSlug.slugOf).Nodup) ∧
    (∀ (env : PayloadEnv) (blks : BlockList) (s : String),
      blks.slugs.Nodup → (env.blocks.map Block.slug).Nodup → s ∈ blks.slugs →
        ((getBlocksForField env blks (some .globalBlocks)).map
          BlockOrSlug.slugOf).count s = 1) ∧
    (∀ (env : PayloadEnv) (blks : BlockList) (refs : RefList),
      (getBlocksForField env blks (some (.list refs))).map BlockOrSlug.slugOf =
        blks.slugs ++ refs.slugsList.filter (fun str => !blks.slugs.contains str)) := by
  have hglobal : ∀ (env : PayloadEnv) (blks : BlockList),
      (getBlocksForField env blks (some .globalBlocks)).map BlockOrSlug.slugOf =
        blks.slugs ++
          (env.blocks.filter (fun g => !blks.slugs.contains g.slug)).map Block.slug := by
    intro env blks
    unfold getBlocksForField
    rw [foldl_pushGlobal_slugs, blockList_slugsOf]
  have hnotmem : ∀ (env : PayloadEnv) (blks : BlockList) (x : String), x ∈ blks.slugs →
      x ∉ (env.blocks.filter (fun g => !blks.slugs.contains g.slug)).map Block.slug := by
    intro env blks x hx hx'
    obtain ⟨g, hg, hgx⟩ := List.mem_map.mp hx'
    have hmem := List.of_mem_filter hg
    rw [hgx] at hmem
    simp at hmem
    exact hmem hx
  refine ⟨?_, hglobal, ?_, ?_, ?_⟩
  · intro env bt blks refs? b h
    unfold resolveBlock
    rw [h]
  · intro env blks h1 h2
    constructor
    · unfold getBlocksForField
      rw [blockList_slugsOf]
      exact h1
    · rw [hglobal]
      refine List.Nodup.append h1 ?_ (fun x hx => hnotmem env blks x hx)
      exact ((List.filter_sublist env.blocks).map Block.slug).nodup h2
  · intro env blks x h1 h2 hx
    rw [hglobal, List.count_append]
    rw [List.count_eq_one_of_mem h1 hx,
      List.count_eq_zero_of_not_mem (hnotmem env blks x hx)]
  · intro env blks refs
    unfold getBlocksForField
    rw [refsAvailable_slugs, blockList_slugsOf]

/-- C2 witness: with one inline variant `g` shadowing the global variant `g`,
the all-global available-variants list carries the slug `g` exactly once. -/
theorem available_variants_precedence_and_dedup_witness :
    ((getBlocksForField { blocks := [Block.mk "g" .nil] }
        (.cons (.mk "g" (.cons (.text "t" {} false) .nil)) .nil)
        (some .globalBlocks)).map BlockOrSlug.slugOf).count "g" = 1 :=
  available_variants_precedence_and_dedup.2.2.2.1 { blocks := [Block.mk "g" .nil] }
    (.cons (.mk "g" (.cons (.text "t" {} false) .nil)) .nil) "g"
    (by decide) (by decide) (by decide)

/-- C8: the client path-map builder never recompiles a referenced (non-inline,
unshadowed) global variant. In the `blockReferences` loop, the entry recorded
at the synthetic path `<field path>.<slug>` is exactly the entry already stored
under the reserved root `__global_blocks__.<slug>` (the same definition
object), an unknown referenced slug is silently skipped (the map is unchanged),
and end to end — collection `posts` with an all-global blocks field `content`
referencing global variant `g` — the synthetic entry `posts.content.g` equals
the reserved-root entry, while no sub-entries (`posts.content.g.sub`) are
produced for the referenced variant even though the pre-pass produced
`__global_blocks__.g.sub`. -/
theorem referenced_block_copied_by_reference :
    (∀ (cfg : ClientCfg) (g : String) (inlineSlugs : List String)
        (schemaPath : String) (m : CSchemaMap) (e : MapEntry),
      inlineSlugs.contains g = false →
      mapGet m ("__global_blocks__." ++ g) = some e →
      traverseRefBlocks cfg (.cons (.slug g) .nil) inlineSlugs schemaPath m =
        mapSet m (schemaPath ++ "." ++ g) e) ∧
    (∀ (cfg : ClientCfg) (g : String) (inlineSlugs : List String)
        (schemaPath : String) (m : CSchemaMap),
      inlineSlugs.contains g = false →
      mapGet m ("__global_blocks__." ++ g) = none →
      traverseRefBlocks cfg (.cons (.slug g) .nil) inlineSlugs schemaPath m = m) ∧
    (mapGet (buildClientFieldSchemaMap
        { blocks := [Block.mk "g" (.cons (.text "sub" {} false) .nil)],
          collections := [{ slug := "posts",
                            fields := .cons (.blocks "content" {} .nil
                              (some .globalBlocks)) .nil }] }
        (some "posts") none) "posts.content.g" =
      mapGet (buildClientFieldSchemaMap
        { blocks := [Block.mk "g" (.cons (.text "sub" {} false) .nil)],
          collections := [{ slug := "posts",
                            fields := .cons (.blocks "content" {} .nil
                              (some .globalBlocks)) .nil }] }
        (some "posts") none) "__global_blocks__.g") ∧
    (mapGet (buildClientFieldSchemaMap
        { blocks := [Block.mk "g" (.cons (.text "sub" {} false) .nil)],
          collections := [{ slug := "posts",
                            fields := .cons (.blocks "content" {} .nil
                              (some .globalBlocks)) .nil }] }
        (some "posts") none) "posts.content.g" =
      some (.block (Block.mk "g" (.cons (.text "sub" {} false) .nil)))) ∧
    (mapGet (buildClientFieldSchemaMap
        { blocks := [Block.mk "g" (.cons (.text "sub" {} false) .nil)],
          collections := [{ slug := "posts",
                            fields := .cons (.blocks "content" {} .nil
                              (some .globalBlocks)) .nil }] }
        (some "posts") none) "posts.content.g.sub" = none) ∧
    (mapGet (buildClientFieldSchemaMap
        { blocks := [Block.mk "g" (.cons (.text "sub" {} false) .nil)],
          collections := [{ slug := "posts",
                            fields := .cons (.blocks "content" {} .nil
                              (some .globalBlocks)) .nil }] }
        (some "posts") none) "__global_blocks__.g.sub" =
      some (.field (.text "sub" {} false))) := by
  refine ⟨?_, ?_, rfl, rfl, rfl, rfl⟩
  · intro cfg g inlineSlugs schemaPath m e hg he
    unfold traverseRefBlocks
    rw [hg]
    simp only [Bool.false_eq_true, if_false]
    rw [he]
    unfold traverseRefBlocks
    rfl
  · intro cfg g inlineSlugs schemaPath m hg he
    unfold traverseRefBlocks
    rw [hg]
    simp only [Bool.false_eq_true, if_false]
    rw [he]
    unfold traverseRefBlocks
    rfl

/-- C8 witness. -/
theorem referenced_block_copied_by_reference_witness :
    traverseRefBlocks {} (.cons (.slug "g") .nil) [] "p"
        [("__global_blocks__.g", MapEntry.block (Block.mk "g" .nil))] =
      mapSet [("__global_blocks__.g", MapEntry.block (Block.mk "g" .nil))]
        ("p" ++ "." ++ "g") (MapEntry.block (Block.mk "g" .nil)) :=
  referenced_block_copied_by_reference.1 {} "g" [] "p"
    [("__global_blocks__.g", MapEntry.block (Block.mk "g" .nil))]
    (MapEntry.block (Block.mk "g" .nil)) rfl rfl

theorem FSList.eraseSparseL_addLast (l : FSList) (n : String) (e : FieldSchema) :
    (l.addLast n e).eraseSparseL = l.eraseSparseL.addLast n e.eraseSparse := by
  match l with
  | .nil => rfl
  | .cons n' e' rest =>
      simp [FSList.addLast, FSList.eraseSparseL, FSList.eraseSparseL_addLast rest n e]

theorem MSchema.eraseSparseM_addEntry (m : MSchema) (n : String) (e : FieldSchema) :
    (m.addEntry n e).eraseSparseM = m.eraseSparseM.addEntry n e.eraseSparse := by
  cases m
  simp [MSchema.addEntry, MSchema.eraseSparseM, MSchema.seed, MSchema.entries,
    MSchema.discrims, MSchema.indexes, FSList.eraseSparseL_addLast]

theorem DiscrimList.eraseSparseD_addLast (d : DiscrimList) (p s : String) (r : BlockRef) :
    (d.addLast p s r).eraseSparseD = d.eraseSparseD.addLast p s r.eraseSparseR := by
  match d with
  | .nil => rfl
  | .cons p' s' r' rest =>
      simp [DiscrimList.addLast, DiscrimList.eraseSparseD,
        DiscrimList.eraseSparseD_addLast rest p s r]

theorem MSchema.eraseSparseM_addDiscrim (m : MSchema) (p s : String) (r : BlockRef) :
    (m.addDiscrim p s r).eraseSparseM = m.eraseSparseM.addDiscrim p s r.eraseSparseR := by
  cases m
  simp [MSchema.addDiscrim, MSchema.eraseSparseM, MSchema.seed, MSchema.entries,
    MSchema.discrims, MSchema.indexes, DiscrimList.eraseSparseD_addLast]

theorem MSchema.eraseSparseM_addIndex (m : MSchema) (i : IndexSpec) :
    (m.addIndex i).eraseSparseM = m.eraseSparseM.addIndex i := by
  cases m
  rfl

theorem localizeSchema_none (l : Bool) (fs : FieldSchema) (pil : Bool) :
    localizeSchema l fs none pil = fs := rfl

theorem Field.flags_stripLoc (f : Field) : f.stripLoc.flags = stripFlags f.flags := by
  cases f <;> rfl

theorem Field.name?_stripLoc (f : Field) : f.stripLoc.name? = f.name? := by
  cases f <;> rfl

theorem fieldAffectsData_stripLoc (f : Field) :
    fieldAffectsData f.stripLoc = fieldAffectsData f := by
  unfold fieldAffectsData
  rw [Field.name?_stripLoc]

theorem Field.isGroupOrTab_stripLoc (f : Field) :
    f.stripLoc.isGroupOrTab = f.isGroupOrTab := by
  cases f <;> rfl

theorem fieldIsVirtual_stripLoc (f : Field) :
    fieldIsVirtual f.stripLoc = fieldIsVirtual f := by
  unfold fieldIsVirtual
  rw [Field.flags_stripLoc]
  rfl

theorem isIdField_stripLoc (f : Field) : isIdField f.stripLoc = isIdField f := by
  unfold isIdField
  rw [fieldAffectsData_stripLoc, Field.name?_stripLoc]

theorem idSeed_stripLoc (env : PayloadEnv) (g : Field) :
    idSeed env g.stripLoc = idSeed env g := by
  cases g <;> rfl

theorem findIdField_stripLoc (fs : FieldList) :
    findIdField fs.stripLocL = (findIdField fs).map Field.stripLoc := by
  match fs with
  | .nil => rfl
  | .cons f rest =>
      show findIdField (.cons f.stripLoc rest.stripLocL) = _
      unfold findIdField
      rw [isIdField_stripLoc]
      by_cases h : isIdField f = true
      · simp [h]
      · simp [h, findIdField_stripLoc rest]

theorem Block.slug_stripLocB (b : Block) : b.stripLocB.slug = b.slug := by
  cases b
  rfl

theorem BlockList.slugs_stripLocBL (bl : BlockList) : bl.stripLocBL.slugs = bl.slugs := by
  match bl with
  | .nil => rfl
  | .cons b rest =>
      show BlockList.slugs (.cons b.stripLocB rest.stripLocBL) = _
      simp [BlockList.slugs, Block.slug_stripLocB, BlockList.slugs_stripLocBL rest]

theorem BlockRefEntry.refSlug_stripLocE (r : BlockRefEntry) :
    r.stripLocE.refSlug = r.refSlug := by
  cases r with
  | slug s => rfl
  | inlineBlock b => cases b; rfl

theorem BaseOpts.eraseO_sparse_update (x : BaseOpts) (c : Prop) [Decidable c] :
    (if c then { x with sparse := some true } else x).eraseO = x.eraseO := by
  split <;> rfl

theorem BaseOpts.eraseO_hidden_update (y : BaseOpts) :
    ({ y with hidden := some true } : BaseOpts).eraseO =
      { y.eraseO with hidden := some true } := rfl

theorem formatBaseSchema_eraseO (o : BuildSchemaOptions) (f : Field) (pil pil' : Bool) :
    (formatBaseSchema o f pil).eraseO = (formatBaseSchema o f.stripLoc pil').eraseO := by
  unfold formatBaseSchema
  rw [Field.flags_stripLoc, fieldAffectsData_stripLoc, Field.isGroupOrTab_stripLoc]
  dsimp only [stripFlags]
  repeat' split
  all_goals rfl
theorem collectGlobalRefs_pairErase (gb : List Block) (gmap : SchemaMap)
    (acc acc' : List (String × BlockRef)) (proc : List String)
    (h : acc.map pairErase = acc'.map pairErase) :
    ((collectGlobalRefs gb gmap acc proc).1.map pairErase =
      (collectGlobalRefs gb gmap acc' proc).1.map pairErase) ∧
    (collectGlobalRefs gb gmap acc proc).2 = (collectGlobalRefs gb gmap acc' proc).2 := by
  induction gb generalizing acc acc' proc with
  | nil => exact ⟨h, rfl⟩
  | cons g rest ih =>
      unfold collectGlobalRefs
      split
      · exact ih acc acc' proc h
      · split
        · exact ih _ _ _ (by simp [h, pairErase, BlockRef.eraseSparseR])
        · exact ih acc acc' proc h

theorem attachOne_none (env : PayloadEnv) (h : env.localization = none)
    (n : String) (l pil : Bool) (s : MSchema) (p : String × BlockRef) :
    attachOne n l env pil s p = s.addDiscrim n p.1 p.2 := by
  unfold attachOne
  rw [h]

theorem attachDiscrims_cons (n : String) (l : Bool) (env : PayloadEnv) (pil : Bool)
    (p : String × BlockRef) (rest : List (String × BlockRef)) (s : MSchema) :
    attachDiscrims n l env pil (p :: rest) s =
      attachDiscrims n l env pil rest (attachOne n l env pil s p) := by
  unfold attachDiscrims
  rw [List.foldl_cons]

theorem attachDiscrims_eraseSparse (env : PayloadEnv) (h : env.localization = none)
    (n : String) (l l' pil pil' : Bool) (toAdd : List (String × BlockRef)) (s : MSchema) :
    (attachDiscrims n l env pil toAdd s).eraseSparseM =
      attachDiscrims n l' env pil' (toAdd.map pairErase) s.eraseSparseM := by
  induction toAdd generalizing s with
  | nil => rfl
  | cons p rest ih =>
      rw [List.map_cons, attachDiscrims_cons, attachDiscrims_cons]
      rw [attachOne_none env h, attachOne_none env h]
      rw [ih (s.addDiscrim n p.1 p.2)]
      rw [MSchema.eraseSparseM_addDiscrim]
      rfl

theorem MSchema.eraseSparseM_withSeed (seed : List (String × SType)) :
    (MSchema.withSeed seed).eraseSparseM = MSchema.withSeed seed := rfl

mutual

theorem buildFields_eraseSparse (env : PayloadEnv) (o : BuildSchemaOptions)
    (dI sV : Bool) (fs : FieldList) (henv : env.localization = none)
    (pil pil' : Bool) (acc acc' : MSchema)
    (hacc : acc.eraseSparseM = acc'.eraseSparseM) :
    (buildFields env o dI sV fs pil acc).eraseSparseM =
      (buildFields env o dI sV fs.stripLocL pil' acc').eraseSparseM := by
  match fs with
  | .nil => simpa [buildFields, FieldList.stripLocL] using hacc
  | .cons f rest =>
      show (buildFields env o dI sV (.cons f rest) pil acc).eraseSparseM =
        (buildFields env o dI sV (.cons f.stripLoc rest.stripLocL) pil' acc').eraseSparseM
      unfold buildFields
      rw [isIdField_stripLoc, fieldIsVirtual_stripLoc]
      by_cases h1 : (dI && isIdField f) = true
      · rw [if_pos h1, if_pos h1]
        exact buildFields_eraseSparse env o dI sV rest henv pil pil' acc acc' hacc
      · rw [if_neg h1, if_neg h1]
        by_cases h2 : (sV && (fieldIsVirtual f || fieldIsPresentationalOnly f)) = true
        · have h2' : (sV && (fieldIsVirtual f || fieldIsPresentationalOnly f.stripLoc)) =
              true := by
            simpa [fieldIsPresentationalOnly] using h2
          rw [if_pos h2, if_pos h2']
          exact buildFields_eraseSparse env o dI sV rest henv pil pil' acc acc' hacc
        · have h2' : ¬ ((sV && (fieldIsVirtual f || fieldIsPresentationalOnly f.stripLoc)) =
              true) := by
            simpa [fieldIsPresentationalOnly] using h2
          rw [if_neg h2, if_neg h2']
          exact buildFields_eraseSparse env o dI sV rest henv pil pil' _ _
            (addField_eraseSparse env o f henv pil pil' acc acc' hacc)

theorem addField_eraseSparse (env : PayloadEnv) (o : BuildSchemaOptions) (f : Field)
    (henv : env.localization = none) (pil pil' : Bool) (acc acc' : MSchema)
    (hacc : acc.eraseSparseM = acc'.eraseSparseM) :
    (addField env o pil f acc).eraseSparseM =
      (addField env o pil' f.stripLoc acc').eraseSparseM := by
  match f with
  | .text n fl many =>
      dsimp only [Field.stripLoc]
      unfold addField
      rw [henv, localizeSchema_none, localizeSchema_none,
        MSchema.eraseSparseM_addEntry, MSchema.eraseSparseM_addEntry, hacc]
      have hb := formatBaseSchema_eraseO o (.text n fl many) pil pil'
      dsimp only [Field.stripLoc] at hb
      dsimp only [FieldSchema.eraseSparse]
      rw [hb]
  | .number n fl many =>
      dsimp only [Field.stripLoc]
      unfold addField
      rw [henv, localizeSchema_none, localizeSchema_none,
        MSchema.eraseSparseM_addEntry, MSchema.eraseSparseM_addEntry, hacc]
      have hb := formatBaseSchema_eraseO o (.number n fl many) pil pil'
      dsimp only [Field.stripLoc] at hb
      dsimp only [FieldSchema.eraseSparse]
      rw [hb]
  | .checkbox n fl =>
      dsimp only [Field.stripLoc]
      unfold addField
      rw [henv, localizeSchema_none, localizeSchema_none,
        MSchema.eraseSparseM_addEntry, MSchema.eraseSparseM_addEntry, hacc]
      have hb := formatBaseSchema_eraseO o (.checkbox n fl) pil pil'
      dsimp only [Field.stripLoc] at hb
      dsimp only [FieldSchema.eraseSparse]
      rw [hb]
  | .select n fl opts many =>
      dsimp only [Field.stripLoc]
      unfold addField
      rw [henv]
      dsimp only [stripFlags]
      rw [localizeSchema_none, localizeSchema_none,
        MSchema.eraseSparseM_addEntry, MSchema.eraseSparseM_addEntry, hacc]
      have hb := formatBaseSchema_eraseO o (.select n fl opts many) pil pil'
      dsimp only [Field.stripLoc, stripFlags] at hb
      cases many <;>
        simp only [if_true, if_false, Bool.false_eq_true, eq_self_iff_true,
          FieldSchema.eraseSparse] <;>
        rw [hb]
  | .radio n fl opts =>
      dsimp only [Field.stripLoc]
      unfold addField
      rw [henv, localizeSchema_none, localizeSchema_none,
        MSchema.eraseSparseM_addEntry, MSchema.eraseSparseM_addEntry, hacc]
      have hb := formatBaseSchema_eraseO o (.radio n fl opts) pil pil'
      dsimp only [Field.stripLoc] at hb
      dsimp only [FieldSchema.eraseSparse]
      rw [hb]
  | .point n fl =>
      dsimp only [Field.stripLoc]
      unfold addField
      rw [henv]
      dsimp only [stripFlags]
      by_cases hidx : fl.index.getD true = true
      · rw [if_pos hidx, if_pos hidx]
        by_cases hu : (!o.disableUnique && fl.unique) = true
        · rw [if_pos hu, MSchema.eraseSparseM_addIndex, MSchema.eraseSparseM_addIndex,
            MSchema.eraseSparseM_addEntry, MSchema.eraseSparseM_addEntry, hacc,
            localizeSchema_none, localizeSchema_none]
          rfl
        · rw [if_neg hu, MSchema.eraseSparseM_addIndex, MSchema.eraseSparseM_addIndex,
            MSchema.eraseSparseM_addEntry, MSchema.eraseSparseM_addEntry, hacc,
            localizeSchema_none, localizeSchema_none]
          rfl
      · rw [if_neg hidx, if_neg hidx, MSchema.eraseSparseM_addEntry,
          MSchema.eraseSparseM_addEntry, hacc, localizeSchema_none, localizeSchema_none]
        rfl
  | .group (some n) fl gfields =>
      dsimp only [Field.stripLoc]
      unfold addField
      dsimp only
      rw [henv, localizeSchema_none, localizeSchema_none,
        MSchema.eraseSparseM_addEntry, MSchema.eraseSparseM_addEntry, hacc]
      rw [findIdField_stripLoc]
      have hb := formatBaseSchema_eraseO o (.group (some n) fl gfields) pil pil'
      dsimp only [Field.stripLoc] at hb
      have hseed : (match (findIdField gfields).map Field.stripLoc with
          | some g => idSeed env g | none => []) =
          (match findIdField gfields with | some g => idSeed env g | none => []) := by
        cases findIdField gfields with
        | none => rfl
        | some g => simp [idSeed_stripLoc]
      rw [hseed]
      have hsome : ((findIdField gfields).map Field.stripLoc).isSome =
          (findIdField gfields).isSome := by
        cases findIdField gfields <;> rfl
      rw [hsome]
      dsimp only [FieldSchema.eraseSparse]
      rw [hb, show (stripFlags fl).localized = false from rfl]
      rw [buildFields_eraseSparse env _ _ true gfields henv (pil || fl.localized)
        (pil' || false) _ _ rfl]
  | .group none fl gfields =>
      dsimp only [Field.stripLoc]
      unfold addField
      rw [show (stripFlags fl).localized = false from rfl]
      exact buildFields_eraseSparse env o false true gfields henv (pil || fl.localized)
        (pil' || false) acc acc' hacc
  | .array n fl afields =>
      dsimp only [Field.stripLoc]
      unfold addField
      dsimp only
      rw [henv, localizeSchema_none, localizeSchema_none,
        MSchema.eraseSparseM_addEntry, MSchema.eraseSparseM_addEntry, hacc]
      have hb := formatBaseSchema_eraseO o (.array n fl afields) pil pil'
      dsimp only [Field.stripLoc] at hb
      dsimp only [FieldSchema.eraseSparse]
      rw [hb, show (stripFlags fl).localized = false from rfl]
      rw [buildFields_eraseSparse env _ false true afields henv (pil || fl.localized)
        (pil' || false) MSchema.empty MSchema.empty rfl]
  | .row rfields =>
      dsimp only [Field.stripLoc]
      unfold addField
      exact buildFields_eraseSparse env o false true rfields henv pil pil' acc acc' hacc
  | .collapsible cfields =>
      dsimp only [Field.stripLoc]
      unfold addField
      exact buildFields_eraseSparse env o false true cfields henv pil pil' acc acc' hacc
  | .tabs ts =>
      dsimp only [Field.stripLoc]
      unfold addField
      exact buildTabs_eraseSparse env o ts henv pil pil' acc acc' hacc
  | .blocks n fl blks none =>
      dsimp only [Field.stripLoc]
      unfold addField
      dsimp only
      rw [henv, localizeSchema_none, localizeSchema_none]
      rw [attachDiscrims_eraseSparse env henv n fl.localized false pil pil',
        attachDiscrims_eraseSparse env henv n (stripFlags fl).localized false pil' pil']
      rw [MSchema.eraseSparseM_addEntry, MSchema.eraseSparseM_addEntry, hacc]
      have hst1 := collectInline_eraseSparse env o blks henv (pil || fl.localized)
        (pil' || (stripFlags fl).localized) [] [] [] rfl
      have hb := formatBaseSchema_eraseO o (.blocks n fl blks none) pil pil'
      dsimp only [Field.stripLoc] at hb
      rw [hst1.1]
      dsimp only [FieldSchema.eraseSparse]
      rw [hb]
  | .blocks n fl blks (some .globalBlocks) =>
      dsimp only [Field.stripLoc]
      unfold addField
      dsimp only
      rw [henv, localizeSchema_none, localizeSchema_none]
      rw [attachDiscrims_eraseSparse env henv n fl.localized false pil pil',
        attachDiscrims_eraseSparse env henv n (stripFlags fl).localized false pil' pil']
      rw [MSchema.eraseSparseM_addEntry, MSchema.eraseSparseM_addEntry, hacc]
      have hst1 := collectInline_eraseSparse env o blks henv (pil || fl.localized)
        (pil' || (stripFlags fl).localized) [] [] [] rfl
      have htoadd := (collectGlobalRefs_pairErase env.blocks env.globalBlockSchemas _ _
        ((collectInline env o (pil || fl.localized) blks [] []).2) hst1.1).1.trans
        (by rw [hst1.2])
      have hb := formatBaseSchema_eraseO o (.blocks n fl blks (some .globalBlocks)) pil pil'
      dsimp only [Field.stripLoc] at hb
      rw [htoadd]
      dsimp only [FieldSchema.eraseSparse]
      rw [hb]
  | .blocks n fl blks (some (.list refs)) =>
      dsimp only [Field.stripLoc]
      unfold addField
      dsimp only
      rw [henv, localizeSchema_none, localizeSchema_none]
      rw [attachDiscrims_eraseSparse env henv n fl.localized false pil pil',
        attachDiscrims_eraseSparse env henv n (stripFlags fl).localized false pil' pil']
      rw [MSchema.eraseSparseM_addEntry, MSchema.eraseSparseM_addEntry, hacc]
      have hst1 := collectInline_eraseSparse env o blks henv (pil || fl.localized)
        (pil' || (stripFlags fl).localized) [] [] [] rfl
      have htoadd := (collectRefs_eraseSparse env o refs henv (pil || fl.localized)
        (pil' || (stripFlags fl).localized) _ _
        ((collectInline env o (pil || fl.localized) blks [] []).2) hst1.1).1.trans
        (by rw [hst1.2])
      have hb := formatBaseSchema_eraseO o (.blocks n fl blks (some (.list refs))) pil pil'
      dsimp only [Field.stripLoc] at hb
      rw [htoadd]
      dsimp only [FieldSchema.eraseSparse]
      rw [hb]

theorem collectInline_eraseSparse (env : PayloadEnv) (o : BuildSchemaOptions)
    (bl : BlockList) (henv : env.localization = none) (pb pb' : Bool)
    (acc acc' : List (String × BlockRef)) (proc : List String)
    (hacc : acc.map pairErase = acc'.map pairErase) :
    ((collectInline env o pb bl acc proc).1.map pairErase =
      (collectInline env o pb' bl.stripLocBL acc' proc).1.map pairErase) ∧
    (collectInline env o pb bl acc proc).2 =
      (collectInline env o pb' bl.stripLocBL acc' proc).2 := by
  match bl with
  | .nil => exact ⟨by simpa [collectInline, BlockList.stripLocBL] using hacc,
      by simp [collectInline, BlockList.stripLocBL]⟩
  | .cons (.mk bslug bfields) rest =>
      show _ ∧ (collectInline env o pb (.cons (.mk bslug bfields) rest) acc proc).2 =
        (collectInline env o pb'
          (.cons (.mk bslug bfields.stripLocL) rest.stripLocBL) acc' proc).2
      unfold collectInline
      exact collectInline_eraseSparse env o rest henv pb pb' _ _ _
        (by simp only [List.map_append, hacc, List.map_cons, List.map_nil, pairErase,
              BlockRef.eraseSparseR]
            rw [buildFields_eraseSparse env o false false bfields henv pb pb'
              MSchema.empty MSchema.empty rfl])

theorem collectRefs_eraseSparse (env : PayloadEnv) (o : BuildSchemaOptions)
    (rl : RefList) (henv : env.localization = none) (pb pb' : Bool)
    (acc acc' : List (String × BlockRef)) (proc : List String)
    (hacc : acc.map pairErase = acc'.map pairErase) :
    ((collectRefs env o pb env.globalBlockSchemas rl acc proc).1.map pairErase =
      (collectRefs env o pb' env.globalBlockSchemas rl.stripLocRL acc' proc).1.map
        pairErase) ∧
    (collectRefs env o pb env.globalBlockSchemas rl acc proc).2 =
      (collectRefs env o pb' env.globalBlockSchemas rl.stripLocRL acc' proc).2 := by
  match rl with
  | .nil => exact ⟨by simpa [collectRefs, RefList.stripLocRL] using hacc,
      by simp [collectRefs, RefList.stripLocRL]⟩
  | .cons (.slug str) rest =>
      dsimp only [RefList.stripLocRL, BlockRefEntry.stripLocE]
      unfold collectRefs
      split
      · exact collectRefs_eraseSparse env o rest henv pb pb' acc acc' proc hacc
      · split
        · exact collectRefs_eraseSparse env o rest henv pb pb' _ _ _
            (by simp [hacc, pairErase, BlockRef.eraseSparseR])
        · exact collectRefs_eraseSparse env o rest henv pb pb' acc acc' proc hacc
  | .cons (.inlineBlock (.mk bslug bfields)) rest =>
      dsimp only [RefList.stripLocRL, BlockRefEntry.stripLocE, Block.stripLocB]
      unfold collectRefs
      split
      · exact collectRefs_eraseSparse env o rest henv pb pb' acc acc' proc hacc
      · exact collectRefs_eraseSparse env o rest henv pb pb' _ _ _
          (by simp only [List.map_append, hacc, List.map_cons, List.map_nil, pairErase,
                BlockRef.eraseSparseR]
              rw [buildFields_eraseSparse env o false false bfields henv pb pb'
                MSchema.empty MSchema.empty rfl])

theorem buildTabs_eraseSparse (env : PayloadEnv) (o : BuildSchemaOptions) (ts : TabList)
    (henv : env.localization = none) (pil pil' : Bool) (s s' : MSchema)
    (hacc : s.eraseSparseM = s'.eraseSparseM) :
    (buildTabs env o pil ts s).eraseSparseM =
      (buildTabs env o pil' ts.stripLocTL s').eraseSparseM := by
  match ts with
  | .nil => simpa [buildTabs, TabList.stripLocTL] using hacc
  | .cons (.mk (some tn) tloc tvirt tfields) rest =>
      show (buildTabs env o pil (.cons (.mk (some tn) tloc tvirt tfields) rest) s).eraseSparseM
        = (buildTabs env o pil'
            (.cons (.mk (some tn) false tvirt tfields.stripLocL) rest.stripLocTL) s').eraseSparseM
      unfold buildTabs
      by_cases hv : tvirt = true
      · rw [if_pos hv, if_pos hv]
        exact buildTabs_eraseSparse env o rest henv pil pil' s s' hacc
      · rw [if_neg hv, if_neg hv]
        refine buildTabs_eraseSparse env o rest henv pil pil' _ _ ?_
        dsimp only
        rw [henv, localizeSchema_none, localizeSchema_none,
          MSchema.eraseSparseM_addEntry, MSchema.eraseSparseM_addEntry, hacc]
        rw [findIdField_stripLoc]
        have hseed : (match (findIdField tfields).map Field.stripLoc with
            | some g => idSeed env g | none => []) =
            (match findIdField tfields with | some g => idSeed env g | none => []) := by
          cases findIdField tfields with
          | none => rfl
          | some g => simp [idSeed_stripLoc]
        rw [hseed]
        have hsome : ((findIdField tfields).map Field.stripLoc).isSome =
            (findIdField tfields).isSome := by
          cases findIdField tfields <;> rfl
        rw [hsome]
        dsimp only [FieldSchema.eraseSparse]
        rw [buildFields_eraseSparse env _ _ true tfields henv (pil || tloc)
          (pil' || false) _ _ rfl]
  | .cons (.mk none tloc tvirt tfields) rest =>
      show (buildTabs env o pil (.cons (.mk none tloc tvirt tfields) rest) s).eraseSparseM
        = (buildTabs env o pil'
            (.cons (.mk none false tvirt tfields.stripLocL) rest.stripLocTL) s').eraseSparseM
      unfold buildTabs
      exact buildTabs_eraseSparse env o rest henv pil pil' _ _
        (buildFields_eraseSparse env o false true tfields henv (pil || tloc)
          (pil' || false) s s' hacc)

end

theorem Field.stripLoc_setLocalized (f : Field) (b : Bool) :
    (f.setLocalized b).stripLoc = f.stripLoc := by
  cases f <;> rfl

/-- C5 counterexample: with localization disabled (no `Localization` in the
environment), a required unique text field compiled with the localized flag
set differs from the same field compiled with the flag cleared: the per-field
localized flag alone drives the sparse computation in `formatBaseSchema`, so
the localized compile gains a sparse marker the other lacks. -/
theorem localized_flag_changes_sparse_without_config :
    ({} : PayloadEnv).localization = none ∧
    (addField {} {} false
        ((Field.text "t" { required := true, unique := true } false).setLocalized true)
        MSchema.empty) ≠
      (addField {} {} false
        ((Field.text "t" { required := true, unique := true } false).setLocalized false)
        MSchema.empty) := by
  refine ⟨rfl, ?_⟩
  intro h
  have h2 := congrArg (fun m => (m.entries.lookup "t").map FieldSchema.sparseProj) h
  exact absurd h2 (by decide)

/-- **C5.** Corrected: when the model has no LocalizationConfig, compiling a
field with the localized flag set yields a schema identical to compiling it
with the flag cleared in every respect *except* the sparse markers: after
erasing the sparse markers everywhere (descriptors, point coordinate
descriptors and index options), the two compiles agree for every field kind,
every compile option set, every parent-localized context and every
accumulator; the sparse markers themselves can differ, because the localized
flag feeds the sparse computation even without a LocalizationConfig. -/
theorem localized_without_config_identical_up_to_sparse (env : PayloadEnv)
    (o : BuildSchemaOptions) (f : Field) (pil : Bool) (acc : MSchema)
    (henv : env.localization = none) (b b' : Bool) :
    (addField env o pil (f.setLocalized b) acc).eraseSparseM =
      (addField env o pil (f.setLocalized b') acc).eraseSparseM := by
  rw [addField_eraseSparse env o (f.setLocalized b) henv pil pil acc acc rfl,
    addField_eraseSparse env o (f.setLocalized b') henv pil pil acc acc rfl,
    Field.stripLoc_setLocalized, Field.stripLoc_setLocalized]

/-- C5 witness: the amended equivalence, evaluated at the counterexample's
field, options and environment. -/
theorem localized_without_config_identical_up_to_sparse_witness :
    ({} : PayloadEnv).localization = none ∧
    (addField {} {} false
        ((Field.text "t" { required := true, unique := true } false).setLocalized true)
        MSchema.empty).eraseSparseM =
      (addField {} {} false
        ((Field.text "t" { required := true, unique := true } false).setLocalized false)
        MSchema.empty).eraseSparseM :=
  ⟨rfl, localized_without_config_identical_up_to_sparse {} {}
    (Field.text "t" { required := true, unique := true } false) false MSchema.empty rfl
    true false⟩

end Payload
